import Mathlib

/-!
Verification of the lightplay MIDI sequencer (src/src/main.c) against its
natural-language specification.  The C program is shallowly embedded: the
input file is a list of bytes read through a cursor, machine integers are
Nat/Int with explicit wrap-around where overflow matters, and fallible C
functions (returning -1) become Option-valued Lean functions.  The playback
loop, which in C polls a MIDI device, is parameterized by an input oracle:
one list of device input bytes per loop iteration.
-/

namespace Lightplay

/-- Wrap-around of a mathematical integer into a 32-bit two-complement int,
modelling overflow of the C `int` type (e.g. `*at_ticks += delta_time` at
main.c:556). -/
def wrap32 (x : Int) : Int :=
  (x + 2147483648) % 4294967296 - 2147483648

/-- Read one byte at the cursor, as `fread` into a `uint8_t` does: the value
is reduced mod 256.  Fails (models a short read, C returns -1) past the end
of the file. -/
def byteAt (bytes : List Nat) (pos : Nat) : Option Nat :=
  (bytes.get? pos).map (fun b => b % 256)

/-- Read one byte and advance the cursor. -/
def readU8 (bytes : List Nat) (pos : Nat) : Option (Nat × Nat) :=
  (byteAt bytes pos).map (fun b => (b, pos + 1))

/-- Read a big-endian 16-bit value, as `fread` + `ntohs` in main.c. -/
def readBE16 (bytes : List Nat) (pos : Nat) : Option (Nat × Nat) :=
  match byteAt bytes pos, byteAt bytes (pos + 1) with
  | some b0, some b1 => some (b0 * 256 + b1, pos + 2)
  | _, _ => none

/-- Read a big-endian 32-bit value, as `fread` + `ntohl` in main.c. -/
def readBE32 (bytes : List Nat) (pos : Nat) : Option (Nat × Nat) :=
  match byteAt bytes pos, byteAt bytes (pos + 1),
        byteAt bytes (pos + 2), byteAt bytes (pos + 3) with
  | some b0, some b1, some b2, some b3 =>
      some (((b0 * 256 + b1) * 256 + b2) * 256 + b3, pos + 4)
  | _, _, _, _ => none

/-- The C-locale whitespace characters that `fscanf` conversions skip:
space, tab, newline, vertical tab, form feed, carriage return. -/
def isWsChar (b : Nat) : Bool :=
  b == 32 || b == 9 || b == 10 || b == 11 || b == 12 || b == 13

/-- Advance the cursor past leading whitespace, as the `%4s` conversion of
`fscanf` does before reading characters (main.c:314 and main.c:394). -/
def skipWs (bytes : List Nat) (pos : Nat) : Nat → Nat
  | 0 => pos
  | fuel + 1 =>
    match byteAt bytes pos with
    | none => pos
    | some b => if isWsChar b then skipWs bytes (pos + 1) fuel else pos

/-- Read up to four non-whitespace characters, stopping at whitespace or end
of file (the character-collecting part of the `%4s` conversion). -/
def scan4Loop (bytes : List Nat) (pos : Nat) (acc : List Nat) :
    Nat → List Nat × Nat
  | 0 => (acc, pos)
  | fuel + 1 =>
    match byteAt bytes pos with
    | none => (acc, pos)
    | some b =>
      if isWsChar b then (acc, pos)
      else scan4Loop bytes (pos + 1) (acc ++ [b]) fuel

/-- Model of `fscanf(midifile, "%4s", buf)`: skip leading whitespace, then
read up to four non-whitespace characters.  Fails (fscanf returns EOF, so
the C caller errors out) when no character at all could be read. -/
def fscanf4s (bytes : List Nat) (pos : Nat) : Option (List Nat × Nat) :=
  let p := skipWs bytes pos bytes.length
  let r := scan4Loop bytes p [] 4
  if r.1.isEmpty then none else some r

/-- Decode loop of `get_next_variable_length_quantity` (main.c:457-478):
up to four bytes, each contributing its low seven bits, stopping at a byte
with the high bit clear.  The accumulator is a C `uint32_t`, hence the
explicit reduction mod 2^32 (which in fact never truncates, as at most 28
bits are accumulated). -/
def vlqLoop (bytes : List Nat) (pos : Nat) (value : Nat) :
    Nat → Option (Nat × Nat)
  | 0 => some (value, pos)
  | fuel + 1 =>
    match byteAt bytes pos with
    | none => none
    | some b =>
      let v := ((value <<< 7) ||| (b &&& 127)) % 4294967296
      if b &&& 128 == 0 then some (v, pos + 1)
      else vlqLoop bytes (pos + 1) v fuel

/-- Model of `get_next_variable_length_quantity`: the loop runs for at most
four bytes and returns the accumulated value as-is if the fourth byte still
has its continuation bit set. -/
def get_next_variable_length_quantity (bytes : List Nat) (pos : Nat) :
    Option (Nat × Nat) :=
  vlqLoop bytes pos 0 4

/-- Model of `parse_smf_header` (main.c:305-376).  Returns the track count,
the ticks-per-quarter-note value and the cursor position after the header
(the `fseek` over any header bytes beyond the first six always succeeds on
a regular file, even past end of file, hence no bounds check there). -/
def parse_smf_header (bytes : List Nat) (pos : Nat) :
    Option (Nat × Nat × Nat) :=
  match fscanf4s bytes pos with
  | none => none
  | some (mthd, pos1) =>
    if mthd ≠ [77, 84, 104, 100] then none
    else match readBE32 bytes pos1 with
    | none => none
    | some (hdr_length, pos2) =>
      if hdr_length < 6 then none
      else match readBE16 bytes pos2 with
      | none => none
      | some (format, pos3) =>
        if format ≠ 1 then none
        else match readBE16 bytes pos3 with
        | none => none
        | some (track_count, pos4) =>
          match readBE16 bytes pos4 with
          | none => none
          | some (ticks_pqn, pos5) =>
            if ticks_pqn &&& 32768 ≠ 0 then none
            else if ticks_pqn = 0 then none
            else some (track_count, ticks_pqn, pos5 + (hdr_length - 6))

/-- Decoded MIDI event, mirroring `struct midievent` (main.c:59-66): a type
tag, an absolute tick position (a C `int`, kept as a wrapped 32-bit value by
the parser), and a union of either a raw 3-byte channel-voice message or a
tempo value in microseconds per quarter note. -/
inductive Midievent where
  | channel_voice (at_ticks : Int) (b0 b1 b2 : Nat)
  | tempo_change (at_ticks : Int) (tempo : Int)
deriving DecidableEq

/-- The tick position of an event. -/
def Midievent.at_ticks : Midievent → Int
  | .channel_voice t _ _ _ => t
  | .tempo_change t _ => t

/-- First byte of `u.raw_midievent`.  For a tempo-change event this models
the C union being read through the other member (as `turn_on_next_lights`
does without checking the type tag): on a little-endian machine byte 0 of
the stored `int` is its least significant byte. -/
def Midievent.raw0 : Midievent → Nat
  | .channel_voice _ b0 _ _ => b0
  | .tempo_change _ t => t.toNat % 256

/-- Second byte of `u.raw_midievent` (union pun for tempo events). -/
def Midievent.raw1 : Midievent → Nat
  | .channel_voice _ _ b1 _ => b1
  | .tempo_change _ t => t.toNat / 256 % 256

/-- Third byte of `u.raw_midievent` (union pun for tempo events). -/
def Midievent.raw2 : Midievent → Nat
  | .channel_voice _ _ _ b2 => b2
  | .tempo_change _ t => t.toNat / 65536 % 256

/-- Model of `parse_meta_event` (main.c:570-622).  Returns the possibly
emitted event, the new cursor position and the new tick accumulator; `none`
models the C function returning -1.  A non-set-tempo meta event is skipped
(its delta time is discarded); a set-tempo meta of length other than 3 is a
fatal error. -/
def parse_meta_event (bytes : List Nat) (pos : Nat) (at_ticks : Int)
    (delta_time : Nat) : Option (Option Midievent × Nat × Int) :=
  match readU8 bytes pos with
  | none => none
  | some (event_type, pos1) =>
    match get_next_variable_length_quantity bytes pos1 with
    | none => none
    | some (event_length, pos2) =>
      if event_type ≠ 81 then some (none, pos2 + event_length, at_ticks)
      else if event_length ≠ 3 then none
      else match byteAt bytes pos2, byteAt bytes (pos2 + 1),
                 byteAt bytes (pos2 + 2) with
      | some t0, some t1, some t2 =>
        let at2 := wrap32 (at_ticks + delta_time)
        let new_tempo : Int := ((t0 * 256 + t1) * 256 + t2 : Nat)
        some (some (.tempo_change at2 new_tempo), pos2 + 3, at2)
      | _, _, _ => none

/-- Model of `get_next_midi_event` (main.c:486-568).  State threaded through:
cursor position, tick accumulator (wrapped 32-bit), running-status register.
Returns `(emitted event if any, new position, new at_ticks, new status)`;
`none` models the C function returning -1.  In the C source the running
status test `prev_event_type && !(raw_midievent[0] & 0x80)` tests the
pointer, which is always non-null, so only the high bit of the byte decides;
the data byte is pushed back with `fseek(-1)`. -/
def get_next_midi_event (bytes : List Nat) (pos : Nat) (at_ticks : Int)
    (prev_event_type : Nat) :
    Option (Option Midievent × Nat × Int × Nat) :=
  match get_next_variable_length_quantity bytes pos with
  | none => none
  | some (delta_time, pos1) =>
    match byteAt bytes pos1 with
    | none => none
    | some b0 =>
      let status := if b0 &&& 128 == 0 then prev_event_type else b0
      let pos2 := if b0 &&& 128 == 0 then pos1 else pos1 + 1
      if status == 255 then
        match parse_meta_event bytes pos2 at_ticks delta_time with
        | none => none
        | some (ev, pos3, at2) => some (ev, pos3, at2, status)
      else
        match (if status == 240 || status == 247 then
                 get_next_variable_length_quantity bytes pos2
               else if status &&& 240 == 192 || status &&& 240 == 208 then
                 some (1, pos2)
               else some (2, pos2)) with
        | none => none
        | some (skip_bytes, pos3) =>
          if status &&& 240 ≠ 128 ∧ status &&& 240 ≠ 144 ∧ skip_bytes > 0 then
            some (none, pos3 + skip_bytes, at_ticks, status)
          else
            match byteAt bytes pos3, byteAt bytes (pos3 + 1) with
            | some d1, some d2 =>
              let at2 := wrap32 (at_ticks + delta_time)
              some (some (.channel_voice at2 status d1 d2), pos3 + 2, at2,
                    status)
            | _, _ => none

/-- Event loop of `parse_next_track` (main.c:420-450): repeat
`get_next_midi_event` while the cursor is before the declared end of the
track, appending emitted events.  The fuel argument only serves Lean
termination: each iteration consumes at least one byte, so
`track_bytes + 1` fuel never runs out in a successful parse. -/
def trackLoop (bytes : List Nat) (track_end : Nat) (pos : Nat)
    (at_ticks : Int) (prev : Nat) (acc : List Midievent) :
    Nat → Option (List Midievent × Nat)
  | 0 => none
  | fuel + 1 =>
    if pos < track_end then
      match get_next_midi_event bytes pos at_ticks prev with
      | none => none
      | some (ev, pos2, at2, prev2) =>
        trackLoop bytes track_end pos2 at2 prev2
          (match ev with | none => acc | some e => acc ++ [e]) fuel
    else some (acc, pos)

/-- Chunk-search loop of `parse_next_track` (main.c:392-415): read a 4-byte
chunk magic with `fscanf("%4s")` and a big-endian chunk length, skipping
non-MTrk chunks by their declared length.  Returns the declared track byte
count and the cursor position at the start of the track data. -/
def findTrackChunk (bytes : List Nat) (pos : Nat) : Nat → Option (Nat × Nat)
  | 0 => none
  | fuel + 1 =>
    match fscanf4s bytes pos with
    | none => none
    | some (magic, pos1) =>
      match readBE32 bytes pos1 with
      | none => none
      | some (track_bytes, pos2) =>
        if magic = [77, 84, 114, 107] then some (track_bytes, pos2)
        else findTrackChunk bytes (pos2 + track_bytes) fuel

/-- Model of `parse_next_track` (main.c:378-455): locate the next MTrk
chunk, then run the event loop over exactly its declared byte budget.  The
running-status register starts at zero for every track (main.c:390), and
the tick accumulator starts at zero (main.c:417). -/
def parse_next_track (bytes : List Nat) (pos : Nat) :
    Option (List Midievent × Nat) :=
  match findTrackChunk bytes pos (bytes.length + 1) with
  | none => none
  | some (track_bytes, pos2) =>
    trackLoop bytes (pos2 + track_bytes) pos2 0 0 [] (track_bytes + 1)

/-- Track iteration of `parse_standard_midi_file` (main.c:294-298): parse
as many tracks as the header announced, concatenating their events in track
order. -/
def parseTracks (bytes : List Nat) (pos : Nat) (acc : List Midievent) :
    Nat → Option (List Midievent × Nat)
  | 0 => some (acc, pos)
  | n + 1 =>
    match parse_next_track bytes pos with
    | none => none
    | some (evs, pos2) => parseTracks bytes pos2 (acc ++ evs) n

/-- Model of `parse_standard_midi_file` (main.c:282-303): header, then all
tracks.  Returns the parsed events in parse order (track-major, intra-track
sequence), the ticks-per-quarter-note value and the final cursor
position. -/
def parse_standard_midi_file (bytes : List Nat) :
    Option (List Midievent × Nat × Nat) :=
  match parse_smf_header bytes 0 with
  | none => none
  | some (track_count, ticks_pqn, pos1) =>
    (parseTracks bytes pos1 [] track_count).map
      (fun r => (r.1, ticks_pqn, r.2))

/-- Model of `compare_midievent_positions` (main.c:270-280): compare two
events by tick position only, returning -1, 0 or 1. -/
def compare_midievent_positions (a b : Midievent) : Int :=
  if a.at_ticks < b.at_ticks then -1
  else if a.at_ticks > b.at_ticks then 1
  else 0

/-- The sort step of `do_sequencing` (main.c:252-258): the C code calls
`mergesort(3)`, a stable sort, with `compare_midievent_positions`.  A stable
sort is uniquely determined by its comparator, so the library call is
modelled by the stable `List.mergeSort` with the boolean ordering induced by
the same comparator. -/
def sort_midievents (l : List Midievent) : List Midievent :=
  l.mergeSort (fun a b => decide (compare_midievent_positions a b ≤ 0))

unseal List.merge List.mergeSort

/-- The pending-note set `notes_waiting[MAX_ACTIVE_NOTES]`: a fixed array of
128 flags, here a list of booleans of length 128. -/
abbrev NoteSet := List Bool

/-- Model of `notes_to_wait_for` (main.c:704-714): true when some entry of
the pending-note set is set. -/
def notes_to_wait_for (notes_waiting : NoteSet) : Bool :=
  notes_waiting.any (fun x => x)

/-- How one call of `wait_for_event` behaves: return at once without
touching clock or device (the dry-run path, main.c:788-789), poll with a
finite timeout, or poll with no timeout. -/
inductive WaitBehavior where
  | immediate
  | pollTimed (us : Int)
  | pollInfinite
deriving DecidableEq

/-- Light-on loop of `turn_on_next_lights` (main.c:734-772): starting at the
given index, process all contiguous events whose tick is not beyond the tick
of the first one.  Each event whose byte 0 is exactly 0x90 (note-on,
channel 1) is echoed to the device with velocity forced to 1 (suppressed
under dry run) and its note is marked pending (NOT suppressed under dry run:
main.c:762 sits outside the dry-run guard).  Returns the index past the
batch, the new pending set and the bytes written.  Fuel only serves
termination; the index grows every step so `events.length - idx + 1`
suffices. -/
def lightsLoop (dry : Bool) (events : List Midievent) (first_ticks : Int)
    (idx : Nat) (pending : NoteSet) : Nat → Nat × NoteSet × List (List Nat)
  | 0 => (idx, pending, [])
  | fuel + 1 =>
    match events[idx]? with
    | none => (idx, pending, [])
    | some me =>
      let pending2 :=
        if me.raw0 == 144 then pending.set (me.raw1 &&& 127) true
        else pending
      let out2 : List (List Nat) :=
        if me.raw0 == 144 ∧ ¬ dry then [[144, me.raw1, 1]] else []
      let idx2 := idx + 1
      match events[idx2]? with
      | none => (idx2, pending2, out2)
      | some me2 =>
        if me2.at_ticks ≤ first_ticks then
          let r := lightsLoop dry events first_ticks idx2 pending2 fuel
          (r.1, r.2.1, out2 ++ r.2.2)
        else (idx2, pending2, out2)

/-- Model of `turn_on_next_lights` (main.c:716-777): nothing happens when
the index is already past the end of the buffer. -/
def turn_on_next_lights (dry : Bool) (events : List Midievent) (idx : Nat)
    (pending : NoteSet) : Nat × NoteSet × List (List Nat) :=
  match events[idx]? with
  | none => (idx, pending, [])
  | some me => lightsLoop dry events me.at_ticks idx pending
      (events.length - idx + 1)

/-- Input-matcher loop: the repeated calls of `wait_for_notes`
(main.c:857-916) during one `wait_for_event` call, at byte granularity
(`mio_read` may return any number of bytes; reading them one at a time into
the 3-byte buffer is equivalent).  `buf` is the partially assembled message.
Before each read the pending set is checked (main.c:867): when it is empty
the matcher reports "nothing to wait for" and the wait loop stops, which the
final boolean records.  A complete message whose status nibble is neither
0x80 nor 0x90 is resynced by shifting down its last two bytes
(main.c:883-894); a message with status exactly 0x90 is mirrored as a
note-off and clears the addressed pending entry (main.c:898-908); any other
note-on/off message is consumed silently.  Returns the final pending set,
the bytes written, and whether the matcher reported an empty pending set. -/
def processBytes (pending : NoteSet) (buf : List Nat) :
    List Nat → NoteSet × List (List Nat) × Bool
  | [] => (pending, [], false)
  | b :: rest =>
    if notes_to_wait_for pending then
      let buf2 := buf ++ [b % 256]
      if buf2.length < 3 then processBytes pending buf2 rest
      else
        match buf2 with
        | [s, d1, d2] =>
          if s &&& 240 ≠ 144 ∧ s &&& 240 ≠ 128 then
            processBytes pending [d1, d2] rest
          else if s == 144 then
            let pending2 := pending.set (d1 &&& 127) false
            if notes_to_wait_for pending2 then
              let r := processBytes pending2 [] rest
              (r.1, [128, d1, d2] :: r.2.1, r.2.2)
            else (pending2, [[128, d1, d2]], true)
          else processBytes pending [] rest
        | _ => (pending, [], false)
    else (pending, [], true)

/-- Model of one `wait_for_event` call (main.c:779-851), parameterized by
the bytes the device delivers during this wait.  Under dry run the function
returns at once (main.c:788-789), reading and writing nothing.  With a
finite timeout the delivered bytes are processed and the timeout then ends
the wait regardless of the pending set.  With an infinite timeout the call
returns only once the matcher reports an empty pending set; if the
delivered bytes run out first the poll blocks forever, modelled as `none`.
Device read errors (`mio_read` returning 0) also fall under `none`: the C
code then aborts playback, so no successful playback arises from them. -/
def wait_for_event (dry : Bool) (wait_microseconds : Int)
    (pending : NoteSet) (input : List Nat) :
    WaitBehavior × Option (NoteSet × List (List Nat)) :=
  if dry then (.immediate, some (pending, []))
  else if wait_microseconds ≥ 0 then
    let r := processBytes pending [] input
    (.pollTimed wait_microseconds, some (r.1, r.2.1))
  else
    let r := processBytes pending [] input
    (.pollInfinite, if r.2.2 then some (r.1, r.2.1) else none)

/-- The mutable locals of `playback_midievents` (main.c:629-643). -/
structure PlaybackState where
  notes_waiting : NoteSet
  lighted_keys_index : Nat
  next_lighted_keys_index : Nat
  current_at_ticks : Int
  tempo_microseconds_pqn : Int
deriving DecidableEq

/-- Initial playback state (main.c:637-643): empty pending set, both light
indices at zero, tick position zero, tempo 500000 microseconds per quarter
note. -/
def playback_init : PlaybackState :=
  ⟨List.replicate 128 false, 0, 0, 0, 500000⟩

/-- Step 4 of the playback loop (main.c:677-696): a tempo-change event
updates the tempo; a channel-voice event is written to the device only when
its byte 0 differs from 0x90 AND its byte 1 differs from 0x80 (the guard at
main.c:682-683), and only when not in dry run. -/
def step4_apply (dry : Bool) (me : Midievent) (st : PlaybackState) :
    PlaybackState × List (List Nat) :=
  match me with
  | .tempo_change _ t => ({ st with tempo_microseconds_pqn := t }, [])
  | .channel_voice _ b0 b1 b2 =>
    if b0 ≠ 144 ∧ b1 ≠ 128 then
      (st, if dry then [] else [[b0, b1, b2]])
    else (st, [])

/-- Step 1 of the playback loop (main.c:651-658): when no notes are
pending, remember the light index and turn on the next lights.  Returns the
updated state and the light-echo bytes written. -/
def playback_refill (dry : Bool) (events : List Midievent)
    (st : PlaybackState) : PlaybackState × List (List Nat) :=
  if notes_to_wait_for st.notes_waiting then (st, [])
  else
    let r := turn_on_next_lights dry events st.next_lighted_keys_index
      st.notes_waiting
    ({ st with lighted_keys_index := st.next_lighted_keys_index,
               next_lighted_keys_index := r.1,
               notes_waiting := r.2.1 }, r.2.2)

/-- Step 2 of the playback loop (main.c:662-670): the wait budget is -1
(poll without timeout) when lights are not yet on for the current event,
else the tick difference times the per-tick microseconds, in wrapped C
`int` arithmetic with truncating division. -/
def playback_wait_budget (ticks_pqn : Int) (i : Nat) (st1 : PlaybackState)
    (next_event_at_ticks : Int) : Int :=
  if st1.lighted_keys_index ≤ i then -1
  else wrap32 (wrap32 (next_event_at_ticks - st1.current_at_ticks) *
    (st1.tempo_microseconds_pqn.tdiv ticks_pqn))

/-- Main loop of `playback_midievents` (main.c:645-699), from event index
`i` on.  `inputs` is the input oracle: the bytes the device delivers during
the wait of each iteration.  Returns the final state, all bytes written to
the device, and the observed behavior of each wait; `none` when some
infinite wait never ends (or errors). -/
def playbackAux (dry : Bool) (ticks_pqn : Int) (events : List Midievent)
    (inputs : List (List Nat)) :
    Nat → Nat → PlaybackState →
      Option (PlaybackState × List (List Nat) × List WaitBehavior)
  | 0, i, st =>
    match events[i]? with
    | none => some (st, [], [])
    | some _ => none
  | fuel + 1, i, st =>
    match events[i]? with
    | none => some (st, [], [])
    | some me =>
      let stl := playback_refill dry events st
      let wait_microseconds :=
        playback_wait_budget ticks_pqn i stl.1 me.at_ticks
      match wait_for_event dry wait_microseconds stl.1.notes_waiting
          (inputs.getD i []) with
      | (_, none) => none
      | (wb, some (p2, wouts)) =>
        let sta := step4_apply dry me { stl.1 with notes_waiting := p2 }
        let st4 := { sta.1 with current_at_ticks := me.at_ticks }
        match playbackAux dry ticks_pqn events inputs fuel (i + 1) st4 with
        | none => none
        | some (stf, outs, wbs) =>
          some (stf, stl.2 ++ wouts ++ sta.2 ++ outs, wb :: wbs)

/-- Model of `playback_midievents` (main.c:624-702).  The loop visits each
buffer index once, so `events.length` fuel is exact: the zero-fuel case is
reached only at the end of the buffer. -/
def playback_midievents (dry : Bool) (ticks_pqn : Int)
    (events : List Midievent) (inputs : List (List Nat)) :
    Option (PlaybackState × List (List Nat) × List WaitBehavior) :=
  playbackAux dry ticks_pqn events inputs events.length 0 playback_init

/-- Model of `do_sequencing` (main.c:228-268) as the value `main` returns
(main.c:149-158): -1 on a parse error, 0 when playback completes; `none`
when playback never returns.  Allocation of the event buffer and the
library mergesort are modelled as always succeeding. -/
def do_sequencing (dry : Bool) (bytes : List Nat)
    (inputs : List (List Nat)) : Option Int :=
  match parse_standard_midi_file bytes with
  | none => some (-1)
  | some (events, ticks_pqn, _) =>
    match playback_midievents dry (ticks_pqn : Int) (sort_midievents events)
        inputs with
    | none => none
    | some _ => some 0

/-- The process exit status produced by `return ret;` in `main`
(main.c:158): POSIX keeps the low eight bits of the value returned from
`main`. -/
def lightplay_exit_status (dry : Bool) (bytes : List Nat)
    (inputs : List (List Nat)) : Option Nat :=
  (do_sequencing dry bytes inputs).map (fun r => (r % 256).toNat)

/-! Concrete inputs used by the theorems below. -/

/-- One track event with the maximal four-byte delta time 0x0FFFFFFF
followed by a note-on message. -/
def c1_event_bytes : List Nat :=
  [255, 255, 255, 127, 144, 60, 100]

/-- An MTrk chunk of nine such events: the mathematical tick sum
9 * 268435455 = 2415919095 exceeds the C int range. -/
def c1_track : List Nat :=
  [77, 84, 114, 107, 0, 0, 0, 63] ++
    List.flatten (List.replicate 9 c1_event_bytes)

/-- A file whose header declares format 2: parsing fails, `do_sequencing`
returns -1, and `main` passes -1 out as its return value. -/
def c4_bad_file : List Nat :=
  [77, 84, 104, 100, 0, 0, 0, 6, 0, 2, 0, 1, 0, 96]

/-- A minimal valid format-1 file: one track holding only an end-of-track
meta event, hence no playback events. -/
def c4_good_file : List Nat :=
  [77, 84, 104, 100, 0, 0, 0, 6, 0, 1, 0, 1, 0, 96,
   77, 84, 114, 107, 0, 0, 0, 4, 0, 255, 47, 0]

/-- A file starting with a newline byte before the MThd magic. -/
def c9_ws_file : List Nat :=
  [10, 77, 84, 104, 100, 0, 0, 0, 6, 0, 1, 0, 1, 0, 96]

/-- A minimal fourteen-byte MThd header (length 6, format 1, one track)
with the given ticks-per-quarter-note field, big-endian. -/
def c9_hdr (tpqn : Nat) : List Nat :=
  [77, 84, 104, 100, 0, 0, 0, 6, 0, 1, 0, 1, tpqn / 256, tpqn % 256]

/-- C1: the claim states that parsing guards against overflow of the
`at_ticks` accumulator so that every emitted event carries the exact
non-negative sum of preceding delta times.  The code does not guard (the
comment at main.c:555 concedes it): on this track of nine events with
delta 268435455 each, the ninth event comes out with the wrapped, negative
tick value -1879048201 instead of the mathematical sum 2415919095. -/
theorem c1_at_ticks_overflow_unguarded :
    (parse_next_track c1_track 0).map (fun r => r.1.map Midievent.at_ticks) =
      some [268435455, 536870910, 805306365, 1073741820, 1342177275,
            1610612730, 1879048185, 2147483640, -1879048201] ∧
    (9 * 268435455 : Int) = 2415919095 ∧
    (-1879048201 : Int) < 0 := by
  refine ⟨by decide, by decide, by decide⟩

/-- C2 counterexample: the claim states that during step 4 every non-tempo
event, including a channel-1 note-on (status byte exactly 0x90), is written
to the output.  Playing a buffer with a single such event (with the input
oracle delivering the matching key press), the device receives only the
velocity-1 light echo and the note-off mirror: the message 90 3C 64 itself
is never written, because the guard at main.c:682 suppresses events whose
byte 0 equals 0x90. -/
theorem c2_channel1_noteon_not_written_counterexample :
    (playback_midievents false 96 [.channel_voice 0 144 60 100]
        [[144, 60, 80]]).map (fun r => r.2.1) =
      some [[144, 60, 1], [128, 60, 80]] ∧
    [144, 60, 100] ∉ [[144, 60, 1], [128, 60, 80]] := by
  refine ⟨by decide, by decide⟩

/-- C3 counterexample: the claim states that under dry-run the scheduler
still waits the natural tick time between consecutive events.  Playing two
accompaniment events 96 ticks apart under dry-run, both waits return
immediately (main.c:788-789 returns before touching clock or poll); no wait
is a timed poll, in particular not the claimed
(96 - 0) * (500000 / 96) = 499968 microseconds. -/
theorem c3_dry_run_wait_counterexample :
    (playback_midievents true 96
        [.channel_voice 0 145 40 80, .channel_voice 96 129 40 0] []).map
      (fun r => r.2.2) = some [.immediate, .immediate] ∧
    (∀ us : Int, WaitBehavior.immediate ≠ .pollTimed us) := by
  refine ⟨by decide, fun us h => by cases h⟩

/-- C5 counterexample: the claim states that the pending-note set is empty
again whenever playback returns successfully.  Under dry-run the light-on
step still marks notes pending (main.c:762 sits outside the dry-run guard)
while the wait step never clears them, so playing a channel-1 note-on under
dry-run returns success with note 60 still pending. -/
theorem c5_dry_run_pending_left_counterexample :
    (playback_midievents true 96
        [.channel_voice 0 144 60 100, .channel_voice 24 128 60 64] []).map
      (fun r => notes_to_wait_for r.1.notes_waiting) = some true := by
  decide

/-- C4: the claim states the process exits with status 1 on any error.  On
a parse error (here: a format-2 file) `do_sequencing` returns -1, `main`
returns it, and the process exit status is the low byte 255, not 1; the
success path does exit 0. -/
theorem c4_exit_status_is_255_on_error :
    lightplay_exit_status false c4_bad_file [] = some 255 ∧
    lightplay_exit_status false c4_good_file [] = some 0 ∧
    (255 : Nat) ≠ 1 := by
  refine ⟨by decide, by decide, by decide⟩

/-- C9 counterexample: the claim states the header parser succeeds exactly
when the input begins with the magic MThd.  Because the magic is read with
`fscanf("%4s")` (main.c:314), leading whitespace is skipped: this file
starts with a newline byte, does not begin with MThd, and still parses. -/
theorem c9_leading_whitespace_counterexample :
    parse_smf_header c9_ws_file 0 = some (1, 96, 15) ∧
    c9_ws_file.take 4 ≠ [77, 84, 104, 100] := by
  refine ⟨by decide, by decide⟩

/-! Supporting lemmas for the sort step (claim C6). -/

/-- The boolean order fed to the stable sort holds exactly when the tick of
the first event does not exceed the tick of the second. -/
theorem compare_le_iff (a b : Midievent) :
    (decide (compare_midievent_positions a b ≤ 0) = true) ↔
      a.at_ticks ≤ b.at_ticks := by
  unfold compare_midievent_positions
  split_ifs with h1 h2 <;> simp <;> omega

theorem compare_le_trans (a b c : Midievent)
    (hab : decide (compare_midievent_positions a b ≤ 0) = true)
    (hbc : decide (compare_midievent_positions b c ≤ 0) = true) :
    decide (compare_midievent_positions a c ≤ 0) = true := by
  rw [compare_le_iff] at *
  omega

theorem compare_le_total (a b : Midievent) :
    (decide (compare_midievent_positions a b ≤ 0) ||
      decide (compare_midievent_positions b a ≤ 0)) = true := by
  have h := Int.le_total a.at_ticks b.at_ticks
  rw [Bool.or_eq_true_iff, compare_le_iff, compare_le_iff]
  omega

/-- C6: after the stable sort of `do_sequencing`, the event buffer is in
non-decreasing `at_ticks` order, and the events at any fixed tick appear in
exactly their parse order: filtering the sorted buffer by a tick value
yields the same list as filtering the unsorted (parse-ordered) buffer. -/
theorem c6_sort_nondecreasing_and_stable (l : List Midievent) :
    List.Pairwise (fun a b => a.at_ticks ≤ b.at_ticks) (sort_midievents l) ∧
    ∀ t : Int,
      (sort_midievents l).filter (fun e => decide (e.at_ticks = t)) =
        l.filter (fun e => decide (e.at_ticks = t)) := by
  constructor
  · have h := List.sorted_mergeSort compare_le_trans compare_le_total l
    exact h.imp (fun hab => (compare_le_iff _ _).mp hab)
  · intro t
    set p : Midievent → Bool := fun e => decide (e.at_ticks = t) with hp
    have hmem : ∀ e ∈ l.filter p, p e = true := fun e he =>
      List.of_mem_filter he
    have hpw : List.Pairwise
        (fun a b => decide (compare_midievent_positions a b ≤ 0) = true)
        (l.filter p) := by
      apply List.pairwise_of_forall_mem_list
      intro a ha b hb
      rw [compare_le_iff]
      have ha2 := List.of_mem_filter ha
      have hb2 := List.of_mem_filter hb
      rw [hp] at ha2 hb2
      simp only [decide_eq_true_eq] at ha2 hb2
      omega
    have hsub : (l.filter p).Sublist (sort_midievents l) :=
      List.sublist_mergeSort compare_le_trans compare_le_total hpw
        (List.filter_sublist l)
    have hself : (l.filter p).filter p = l.filter p :=
      List.filter_eq_self.mpr hmem
    have hsub2 : (l.filter p).Sublist ((sort_midievents l).filter p) := by
      have := hsub.filter p
      rwa [hself] at this
    have hperm : ((sort_midievents l).filter p).Perm (l.filter p) :=
      (List.mergeSort_perm l _).filter p
    exact (hsub2.eq_of_length (hperm.length_eq.symm)).symm

/-- C10: while the pending-note set is non-empty, a complete 3-byte input
message with status byte exactly 0x90 is mirrored to the output as a
note-off (status 0x80, data bytes unchanged) and clears the pending entry
`data1 & 0x7f` whether or not it was set; a message whose status high
nibble is 0x8 is consumed without any write and without touching the
pending set. -/
theorem c10_input_matcher_mirror_and_noteoff (pending : NoteSet)
    (s d1 d2 : Nat) (hp : notes_to_wait_for pending = true)
    (hs : s < 256) (h1 : d1 < 256) (h2 : d2 < 256) :
    (s = 144 →
      (processBytes pending [] [s, d1, d2]).1 =
        pending.set (d1 &&& 127) false ∧
      (processBytes pending [] [s, d1, d2]).2.1 = [[128, d1, d2]]) ∧
    (s &&& 240 = 128 →
      (processBytes pending [] [s, d1, d2]).1 = pending ∧
      (processBytes pending [] [s, d1, d2]).2.1 = []) := by
  have hs' : s % 256 = s := Nat.mod_eq_of_lt hs
  have h1' : d1 % 256 = d1 := Nat.mod_eq_of_lt h1
  have h2' : d2 % 256 = d2 := Nat.mod_eq_of_lt h2
  constructor
  · intro hseq
    subst hseq
    have e1 : (144 &&& 240 : Nat) = 144 := by decide
    simp only [processBytes, hp, if_true, hs', h1', h2', List.nil_append,
      List.singleton_append, List.length_cons, List.length_nil,
      List.cons_append, e1]
    norm_num
    split
    · constructor <;> rfl
    · constructor <;> rfl
  · intro hnib
    have hne : (s == 144) = false := by
      apply beq_eq_false_iff_ne.mpr
      intro heq
      rw [heq] at hnib
      exact absurd hnib (by decide)
    simp only [processBytes, hp, if_true, hs', h1', h2', List.nil_append,
      List.singleton_append, List.length_cons, List.length_nil,
      List.cons_append, hnib, hne]
    norm_num

/-- Witness for C10 at a concrete pending set and messages. -/
theorem c10_input_matcher_mirror_and_noteoff_witness :
    ((144 : Nat) = 144 →
      (processBytes ((List.replicate 128 false).set 60 true) []
          [144, 61, 10]).1 =
        ((List.replicate 128 false).set 60 true).set (61 &&& 127) false ∧
      (processBytes ((List.replicate 128 false).set 60 true) []
          [144, 61, 10]).2.1 = [[128, 61, 10]]) ∧
    ((144 : Nat) &&& 240 = 128 →
      (processBytes ((List.replicate 128 false).set 60 true) []
          [144, 61, 10]).1 = (List.replicate 128 false).set 60 true ∧
      (processBytes ((List.replicate 128 false).set 60 true) []
          [144, 61, 10]).2.1 = []) :=
  c10_input_matcher_mirror_and_noteoff
    ((List.replicate 128 false).set 60 true) 144 61 10 (by decide)
    (by decide) (by decide) (by decide)

/-! VLQ round trip (claim C8). -/

/-- Modelled from the spec: the standard SMF variable-length-quantity
encoding of a value of up to 28 bits (the repository contains only the
decoder).  Base-128 digits, most significant first, with the continuation
bit 0x80 set on every digit except the last. -/
def vlq_encode (v : Nat) : List Nat :=
  if v < 128 then [v]
  else if v < 16384 then [128 + v / 128, v % 128]
  else if v < 2097152 then
    [128 + v / 16384, 128 + v / 128 % 128, v % 128]
  else
    [128 + v / 2097152, 128 + v / 16384 % 128, 128 + v / 128 % 128,
     v % 128]

set_option maxRecDepth 8192 in
theorem vlq_and127 : ∀ b < 256, b &&& 127 = b % 128 := by decide

set_option maxRecDepth 8192 in
theorem vlq_and128 : ∀ b < 256, (b &&& 128 == 0) = decide (b < 128) := by
  decide

/-- One accumulation step of the VLQ decode loop, in plain arithmetic: for
a byte below 256 and an accumulator small enough, the shift-or-mask-mod
expression of the C code is multiplication by 128 plus the low seven bits
of the byte. -/
theorem vlq_step_value (value b : Nat) (hb : b < 256)
    (hv : value < 2097152) :
    ((value <<< 7) ||| (b &&& 127)) % 4294967296 = value * 128 + b % 128 := by
  rw [vlq_and127 b hb, Nat.shiftLeft_eq]
  have hlt : b % 128 < 2 ^ 7 := by
    have h2 : b % 128 < 128 := Nat.mod_lt b (by omega)
    norm_num
    exact h2
  have h := Nat.mul_add_lt_is_or hlt value
  rw [mul_comm (2 ^ 7) value] at h
  norm_num at h ⊢
  rw [← h]
  have hfit : value * 128 + b % 128 < 4294967296 := by omega
  exact Nat.mod_eq_of_lt hfit

theorem byteAt_cons_zero (x : Nat) (l : List Nat) :
    byteAt (x :: l) 0 = some (x % 256) := by simp [byteAt]

theorem byteAt_cons_one (x0 x1 : Nat) (l : List Nat) :
    byteAt (x0 :: x1 :: l) 1 = some (x1 % 256) := by simp [byteAt]

theorem byteAt_cons_two (x0 x1 x2 : Nat) (l : List Nat) :
    byteAt (x0 :: x1 :: x2 :: l) 2 = some (x2 % 256) := by simp [byteAt]

theorem byteAt_cons_three (x0 x1 x2 x3 : Nat) (l : List Nat) :
    byteAt (x0 :: x1 :: x2 :: x3 :: l) 3 = some (x3 % 256) := by
  simp [byteAt]

/-- Unfolding of one iteration of the VLQ decode loop once the byte under
the cursor is known. -/
theorem vlqLoop_step (bytes : List Nat) (pos value fuel b : Nat)
    (hb : byteAt bytes pos = some b) :
    vlqLoop bytes pos value (fuel + 1) =
      (if b &&& 128 == 0 then
        some (((value <<< 7) ||| (b &&& 127)) % 4294967296, pos + 1)
      else vlqLoop bytes (pos + 1)
        (((value <<< 7) ||| (b &&& 127)) % 4294967296) fuel) := by
  simp only [vlqLoop, hb]


theorem vlq_decode_one_byte (v : Nat) (rest : List Nat) (h1 : v < 128) :
    get_next_variable_length_quantity (v :: rest) 0 = some (v, 1) := by
  show vlqLoop (v :: rest) 0 0 4 = some (v, 1)
  rw [vlqLoop_step _ _ _ _ v
    (by rw [byteAt_cons_zero, Nat.mod_eq_of_lt (by omega)])]
  rw [vlq_step_value 0 v (by omega) (by omega)]
  rw [vlq_and128 v (by omega)]
  rw [if_pos (by simpa using h1)]
  have hv : 0 * 128 + v % 128 = v := by omega
  rw [hv]

theorem vlq_decode_two_byte (v : Nat) (rest : List Nat) (h1 : 128 ≤ v) (h2 : v < 16384) :
    get_next_variable_length_quantity ((128 + v / 128) :: v % 128 :: rest) 0 =
      some (v, 2) := by
  show vlqLoop _ 0 0 4 = some (v, 2)
  rw [vlqLoop_step _ _ _ _ (128 + v / 128)
    (by rw [byteAt_cons_zero, Nat.mod_eq_of_lt (by omega)])]
  rw [vlq_step_value 0 (128 + v / 128) (by omega) (by omega)]
  rw [vlq_and128 (128 + v / 128) (by omega)]
  rw [if_neg (by simp)]
  rw [vlqLoop_step _ _ _ _ (v % 128)
    (by rw [byteAt_cons_one, Nat.mod_eq_of_lt (by omega)])]
  rw [vlq_step_value _ (v % 128) (by omega) (by omega)]
  rw [vlq_and128 (v % 128) (by omega)]
  rw [if_pos (by simp [Nat.mod_lt])]
  have hv : (0 * 128 + (128 + v / 128) % 128) * 128 + v % 128 % 128 = v := by
    omega
  rw [hv]

theorem vlq_decode_three_byte (v : Nat) (rest : List Nat) (h1 : 16384 ≤ v)
    (h2 : v < 2097152) :
    get_next_variable_length_quantity
      ((128 + v / 16384) :: (128 + v / 128 % 128) :: v % 128 :: rest) 0 =
      some (v, 3) := by
  show vlqLoop _ 0 0 4 = some (v, 3)
  rw [vlqLoop_step _ _ _ _ (128 + v / 16384)
    (by rw [byteAt_cons_zero, Nat.mod_eq_of_lt (by omega)])]
  rw [vlq_step_value 0 (128 + v / 16384) (by omega) (by omega)]
  rw [vlq_and128 (128 + v / 16384) (by omega)]
  rw [if_neg (by simp)]
  rw [vlqLoop_step _ _ _ _ (128 + v / 128 % 128)
    (by rw [byteAt_cons_one, Nat.mod_eq_of_lt (by omega)])]
  rw [vlq_step_value _ (128 + v / 128 % 128) (by omega) (by omega)]
  rw [vlq_and128 (128 + v / 128 % 128) (by omega)]
  rw [if_neg (by simp)]
  rw [vlqLoop_step _ _ _ _ (v % 128)
    (by rw [byteAt_cons_two, Nat.mod_eq_of_lt (by omega)])]
  rw [vlq_step_value _ (v % 128) (by omega) (by omega)]
  rw [vlq_and128 (v % 128) (by omega)]
  rw [if_pos (by simp [Nat.mod_lt])]
  have hv : ((0 * 128 + (128 + v / 16384) % 128) * 128 +
      (128 + v / 128 % 128) % 128) * 128 + v % 128 % 128 = v := by
    omega
  rw [hv]

theorem vlq_decode_four_byte (v : Nat) (rest : List Nat) (h1 : 2097152 ≤ v)
    (h2 : v < 268435456) :
    get_next_variable_length_quantity
      ((128 + v / 2097152) :: (128 + v / 16384 % 128) ::
        (128 + v / 128 % 128) :: v % 128 :: rest) 0 =
      some (v, 4) := by
  show vlqLoop _ 0 0 4 = some (v, 4)
  rw [vlqLoop_step _ _ _ _ (128 + v / 2097152)
    (by rw [byteAt_cons_zero, Nat.mod_eq_of_lt (by omega)])]
  rw [vlq_step_value 0 (128 + v / 2097152) (by omega) (by omega)]
  rw [vlq_and128 (128 + v / 2097152) (by omega)]
  rw [if_neg (by simp)]
  rw [vlqLoop_step _ _ _ _ (128 + v / 16384 % 128)
    (by rw [byteAt_cons_one, Nat.mod_eq_of_lt (by omega)])]
  rw [vlq_step_value _ (128 + v / 16384 % 128) (by omega) (by omega)]
  rw [vlq_and128 (128 + v / 16384 % 128) (by omega)]
  rw [if_neg (by simp)]
  rw [vlqLoop_step _ _ _ _ (128 + v / 128 % 128)
    (by rw [byteAt_cons_two, Nat.mod_eq_of_lt (by omega)])]
  rw [vlq_step_value _ (128 + v / 128 % 128) (by omega) (by omega)]
  rw [vlq_and128 (128 + v / 128 % 128) (by omega)]
  rw [if_neg (by simp)]
  rw [vlqLoop_step _ _ _ _ (v % 128)
    (by rw [byteAt_cons_three, Nat.mod_eq_of_lt (by omega)])]
  rw [vlq_step_value _ (v % 128) (by omega) (by omega)]
  rw [vlq_and128 (v % 128) (by omega)]
  rw [if_pos (by simp [Nat.mod_lt])]
  have hv : (((0 * 128 + (128 + v / 2097152) % 128) * 128 +
      (128 + v / 16384 % 128) % 128) * 128 +
      (128 + v / 128 % 128) % 128) * 128 + v % 128 % 128 = v := by
    omega
  rw [hv]

/-- C8: decoding the VLQ encoding of any value below 2^28 yields the value
back (consuming exactly the encoded bytes, whatever follows them), and a
four-byte VLQ with all four continuation bits set decodes to the
concatenation of the four low-7-bit chunks. -/
theorem c8_vlq_roundtrip_and_four_byte_concat :
    (∀ v rest, v < 268435456 →
      get_next_variable_length_quantity (vlq_encode v ++ rest) 0 =
        some (v, (vlq_encode v).length)) ∧
    (∀ c0 c1 c2 c3, c0 < 128 → c1 < 128 → c2 < 128 → c3 < 128 →
      get_next_variable_length_quantity
        [128 + c0, 128 + c1, 128 + c2, 128 + c3] 0 =
        some (((c0 * 128 + c1) * 128 + c2) * 128 + c3, 4)) := by
  constructor
  · intro v rest hv
    by_cases h1 : v < 128
    · have he : vlq_encode v = [v] := by rw [vlq_encode, if_pos h1]
      rw [he]
      simpa using vlq_decode_one_byte v rest h1
    · by_cases h2 : v < 16384
      · have he : vlq_encode v = [128 + v / 128, v % 128] := by
          rw [vlq_encode, if_neg h1, if_pos h2]
        rw [he]
        simpa using vlq_decode_two_byte v rest (by omega) h2
      · by_cases h3 : v < 2097152
        · have he : vlq_encode v =
              [128 + v / 16384, 128 + v / 128 % 128, v % 128] := by
            rw [vlq_encode, if_neg h1, if_neg h2, if_pos h3]
          rw [he]
          simpa using vlq_decode_three_byte v rest (by omega) h3
        · have he : vlq_encode v =
              [128 + v / 2097152, 128 + v / 16384 % 128,
               128 + v / 128 % 128, v % 128] := by
            rw [vlq_encode, if_neg h1, if_neg h2, if_neg h3]
          rw [he]
          simpa using vlq_decode_four_byte v rest (by omega) hv
  · intro c0 c1 c2 c3 hc0 hc1 hc2 hc3
    show vlqLoop _ 0 0 4 = _
    rw [vlqLoop_step _ _ _ _ (128 + c0)
      (by rw [byteAt_cons_zero, Nat.mod_eq_of_lt (by omega)])]
    rw [vlq_step_value 0 (128 + c0) (by omega) (by omega)]
    rw [vlq_and128 (128 + c0) (by omega)]
    rw [if_neg (by simp)]
    rw [vlqLoop_step _ _ _ _ (128 + c1)
      (by rw [byteAt_cons_one, Nat.mod_eq_of_lt (by omega)])]
    rw [vlq_step_value _ (128 + c1) (by omega) (by omega)]
    rw [vlq_and128 (128 + c1) (by omega)]
    rw [if_neg (by simp)]
    rw [vlqLoop_step _ _ _ _ (128 + c2)
      (by rw [byteAt_cons_two, Nat.mod_eq_of_lt (by omega)])]
    rw [vlq_step_value _ (128 + c2) (by omega) (by omega)]
    rw [vlq_and128 (128 + c2) (by omega)]
    rw [if_neg (by simp)]
    rw [vlqLoop_step _ _ _ _ (128 + c3)
      (by rw [byteAt_cons_three, Nat.mod_eq_of_lt (by omega)])]
    rw [vlq_step_value _ (128 + c3) (by omega) (by omega)]
    rw [vlq_and128 (128 + c3) (by omega)]
    rw [if_neg (by simp)]
    show some _ = _
    have hv : (((0 * 128 + (128 + c0) % 128) * 128 + (128 + c1) % 128) *
        128 + (128 + c2) % 128) * 128 + (128 + c3) % 128 =
        ((c0 * 128 + c1) * 128 + c2) * 128 + c3 := by omega
    rw [hv]

/-- Witness for C8 at the concrete value 1000000 and chunks 1,2,3,4. -/
theorem c8_vlq_roundtrip_witness :
    get_next_variable_length_quantity (vlq_encode 1000000 ++ [7]) 0 =
      some (1000000, (vlq_encode 1000000).length) ∧
    get_next_variable_length_quantity
      [128 + 1, 128 + 2, 128 + 3, 128 + 4] 0 =
      some (((1 * 128 + 2) * 128 + 3) * 128 + 4, 4) :=
  ⟨c8_vlq_roundtrip_and_four_byte_concat.1 1000000 [7] (by decide),
   c8_vlq_roundtrip_and_four_byte_concat.2 1 2 3 4 (by decide) (by decide)
     (by decide) (by decide)⟩


set_option maxRecDepth 8192 in
theorem nib_not_special : ∀ s < 256, (s &&& 240 = 128 ∨ s &&& 240 = 144) →
    (s == 255) = false ∧ (s == 240 || s == 247) = false ∧
    (s &&& 240 == 192 || s &&& 240 == 208) = false ∧
    (s &&& 128 == 0) = false := by decide

set_option maxRecDepth 8192 in
theorem low_and128 : ∀ k < 128, (k &&& 128 == 0) = true := by decide

theorem byteAt_append (pre l : List Nat) (j : Nat) :
    byteAt (pre ++ l) (pre.length + j) = byteAt l j := by
  unfold byteAt
  rw [List.get?_append_right (by omega)]
  have he : pre.length + j - pre.length = j := by omega
  rw [he]

theorem vlq_zero (bytes : List Nat) (pos : Nat)
    (hb : byteAt bytes pos = some 0) :
    get_next_variable_length_quantity bytes pos = some (0, pos + 1) := by
  show vlqLoop bytes pos 0 4 = _
  rw [vlqLoop_step _ _ _ _ 0 hb]
  norm_num

theorem get_next_midi_event_running (bytes : List Nat) (pos : Nat)
    (at_ticks : Int) (s k v : Nat)
    (hb0 : byteAt bytes pos = some 0)
    (hb1 : byteAt bytes (pos + 1) = some k)
    (hb2 : byteAt bytes (pos + 2) = some v)
    (hs : s < 256) (hnib : s &&& 240 = 128 ∨ s &&& 240 = 144)
    (hk : k < 128) :
    get_next_midi_event bytes pos at_ticks s =
      some (some (.channel_voice (wrap32 (at_ticks + 0)) s k v), pos + 3,
        wrap32 (at_ticks + 0), s) := by
  obtain ⟨hn255, hnsys, hncd, hn128⟩ := nib_not_special s hs hnib
  have hd := vlq_zero bytes pos hb0
  have hk128 := low_and128 k hk
  simp only [get_next_midi_event, hd, hb1, hb2, hk128, hn255, hnsys, hncd,
    if_true, Bool.false_eq_true, if_false, eq_self_iff_true]
  rw [if_neg (by push_neg; intro hc1 hc2; exact absurd hnib (by omega))]
  norm_num

theorem get_next_midi_event_status (bytes : List Nat) (pos : Nat)
    (at_ticks : Int) (prev s k v : Nat)
    (hb0 : byteAt bytes pos = some 0)
    (hb1 : byteAt bytes (pos + 1) = some s)
    (hb2 : byteAt bytes (pos + 2) = some k)
    (hb3 : byteAt bytes (pos + 3) = some v)
    (hs : s < 256) (hnib : s &&& 240 = 128 ∨ s &&& 240 = 144) :
    get_next_midi_event bytes pos at_ticks prev =
      some (some (.channel_voice (wrap32 (at_ticks + 0)) s k v), pos + 4,
        wrap32 (at_ticks + 0), s) := by
  obtain ⟨hn255, hnsys, hncd, hn128⟩ := nib_not_special s hs hnib
  have hd := vlq_zero bytes pos hb0
  simp only [get_next_midi_event, hd, hb1, hn128, hn255, hnsys, hncd,
    if_true, Bool.false_eq_true, if_false, eq_self_iff_true]
  rw [if_neg (by push_neg; intro hc1 hc2; exact absurd hnib (by omega))]
  have e2 : pos + 1 + 1 = pos + 2 := by omega
  have e3 : pos + 1 + 1 + 1 = pos + 3 := by omega
  rw [e2, hb2, e3, hb3]
  norm_num

theorem get_next_midi_event_data_skip (bytes : List Nat) (pos : Nat)
    (at_ticks : Int) (k : Nat)
    (hb0 : byteAt bytes pos = some 0)
    (hb1 : byteAt bytes (pos + 1) = some k) (hk : k < 128) :
    get_next_midi_event bytes pos at_ticks 0 =
      some (none, pos + 3, at_ticks, 0) := by
  have hd := vlq_zero bytes pos hb0
  have hk128 := low_and128 k hk
  simp only [get_next_midi_event, hd, hb1, hk128, if_true,
    eq_self_iff_true]
  norm_num

theorem trackLoop_cons (bytes : List Nat) (tend pos : Nat) (at_ticks : Int)
    (prev : Nat) (acc : List Midievent) (fuel : Nat) (ev : Midievent)
    (pos2 : Nat) (at2 : Int) (prev2 : Nat) (hlt : pos < tend)
    (hev : get_next_midi_event bytes pos at_ticks prev =
      some (some ev, pos2, at2, prev2)) :
    trackLoop bytes tend pos at_ticks prev acc (fuel + 1) =
      trackLoop bytes tend pos2 at2 prev2 (acc ++ [ev]) fuel := by
  simp only [trackLoop, if_pos hlt, hev]

theorem trackLoop_skip2 (bytes : List Nat) (tend pos : Nat)
    (at_ticks : Int) (prev : Nat) (acc : List Midievent) (fuel : Nat)
    (pos2 : Nat) (at2 : Int) (prev2 : Nat) (hlt : pos < tend)
    (hev : get_next_midi_event bytes pos at_ticks prev =
      some (none, pos2, at2, prev2)) :
    trackLoop bytes tend pos at_ticks prev acc (fuel + 1) =
      trackLoop bytes tend pos2 at2 prev2 acc fuel := by
  simp only [trackLoop, if_pos hlt, hev]

theorem trackLoop_done (bytes : List Nat) (tend pos : Nat)
    (at_ticks : Int) (prev : Nat) (acc : List Midievent) (fuel : Nat)
    (hge : ¬ pos < tend) :
    trackLoop bytes tend pos at_ticks prev acc (fuel + 1) =
      some (acc, pos) := by
  simp only [trackLoop, if_neg hge]

theorem wrap32_zero_add : wrap32 (0 + 0) = 0 := by decide

theorem trackLoop_running (s k v : Nat) (suf : List Nat) (hs : s < 256)
    (hnib : s &&& 240 = 128 ∨ s &&& 240 = 144) (hk : k < 128)
    (hv : v < 256) :
    ∀ (n : Nat) (pre : List Nat) (acc : List Midievent) (fuel : Nat),
      n + 1 ≤ fuel →
      trackLoop (pre ++ (List.replicate n [0, k, v]).flatten ++ suf)
          (pre.length + 3 * n) pre.length 0 s acc fuel =
        some (acc ++ List.replicate n (.channel_voice 0 s k v),
          pre.length + 3 * n) := by
  intro n
  induction n with
  | zero =>
    intro pre acc fuel hfuel
    obtain ⟨f, rfl⟩ : ∃ f, fuel = f + 1 := ⟨fuel - 1, by omega⟩
    simp [trackLoop_done]
  | succ m ih =>
    intro pre acc fuel hfuel
    obtain ⟨f, rfl⟩ : ∃ f, fuel = f + 1 := ⟨fuel - 1, by omega⟩
    have hbytes : pre ++ (List.replicate (m + 1) [0, k, v]).flatten ++ suf =
        (pre ++ [0, k, v]) ++ (List.replicate m [0, k, v]).flatten ++ suf := by
      simp [List.replicate_succ, List.append_assoc]
    have hbytes2 : (pre ++ [0, k, v]) ++
        (List.replicate m [0, k, v]).flatten ++ suf =
        pre ++ ([0, k, v] ++
          ((List.replicate m [0, k, v]).flatten ++ suf)) := by
      simp [List.append_assoc]
    rw [hbytes]
    have hb0 : byteAt ((pre ++ [0, k, v]) ++
        (List.replicate m [0, k, v]).flatten ++ suf) pre.length =
        some 0 := by
      rw [hbytes2]
      have h2 := byteAt_append pre
        ([0, k, v] ++ ((List.replicate m [0, k, v]).flatten ++ suf)) 0
      simp only [Nat.add_zero] at h2
      rw [h2]
      rfl
    have hb1 : byteAt ((pre ++ [0, k, v]) ++
        (List.replicate m [0, k, v]).flatten ++ suf) (pre.length + 1) =
        some k := by
      rw [hbytes2, byteAt_append]
      show some (k % 256) = some k
      rw [Nat.mod_eq_of_lt (by omega)]
    have hb2 : byteAt ((pre ++ [0, k, v]) ++
        (List.replicate m [0, k, v]).flatten ++ suf) (pre.length + 2) =
        some v := by
      rw [hbytes2, byteAt_append]
      show some (v % 256) = some v
      rw [Nat.mod_eq_of_lt hv]
    have hev := get_next_midi_event_running _ pre.length 0 s k v hb0 hb1
      hb2 hs hnib hk
    rw [wrap32_zero_add] at hev
    rw [trackLoop_cons _ _ _ _ _ _ _ _ _ _ _ (by omega) hev]
    have he1 : pre.length + 3 * (m + 1) =
        (pre ++ [0, k, v]).length + 3 * m := by simp; omega
    have he2 : pre.length + 3 = (pre ++ [0, k, v]).length := by simp
    rw [he1, he2]
    rw [ih (pre ++ [0, k, v]) (acc ++ [Midievent.channel_voice 0 s k v]) f
      (by omega)]
    simp [List.replicate_succ]

theorem skipWs_stop (bytes : List Nat) (pos : Nat) (fuel : Nat)
    (h : ∀ b, byteAt bytes pos = some b → isWsChar b = false) :
    skipWs bytes pos fuel = pos := by
  cases fuel with
  | zero => rfl
  | succ f =>
    simp only [skipWs]
    match hb : byteAt bytes pos with
    | none => rfl
    | some b =>
      show (if isWsChar b = true then skipWs bytes (pos + 1) f else pos) = pos
      rw [h b hb]
      simp

theorem scan4_full (bytes : List Nat) (pos : Nat) (c0 c1 c2 c3 : Nat)
    (hb0 : byteAt bytes pos = some c0)
    (hb1 : byteAt bytes (pos + 1) = some c1)
    (hb2 : byteAt bytes (pos + 2) = some c2)
    (hb3 : byteAt bytes (pos + 3) = some c3)
    (hnw0 : isWsChar c0 = false) (hnw1 : isWsChar c1 = false)
    (hnw2 : isWsChar c2 = false) (hnw3 : isWsChar c3 = false) :
    scan4Loop bytes pos [] 4 = ([c0, c1, c2, c3], pos + 4) := by
  have e2 : pos + 1 + 1 = pos + 2 := by omega
  have e3 : pos + 2 + 1 = pos + 3 := by omega
  have e4 : pos + 3 + 1 = pos + 4 := by omega
  simp only [scan4Loop, hb0, hnw0, Bool.false_eq_true, if_false,
    List.nil_append, e2, hb1, hnw1, e3, hb2, hnw2, e4, hb3, hnw3,
    List.cons_append, List.singleton_append]

theorem fscanf4s_read4 (bytes : List Nat) (pos : Nat) (c0 c1 c2 c3 : Nat)
    (hb0 : byteAt bytes pos = some c0)
    (hb1 : byteAt bytes (pos + 1) = some c1)
    (hb2 : byteAt bytes (pos + 2) = some c2)
    (hb3 : byteAt bytes (pos + 3) = some c3)
    (hnw0 : isWsChar c0 = false) (hnw1 : isWsChar c1 = false)
    (hnw2 : isWsChar c2 = false) (hnw3 : isWsChar c3 = false) :
    fscanf4s bytes pos = some ([c0, c1, c2, c3], pos + 4) := by
  have hskip : skipWs bytes pos bytes.length = pos :=
    skipWs_stop bytes pos bytes.length
      (fun b hb => by rw [hb0] at hb; cases hb; exact hnw0)
  have hscan := scan4_full bytes pos c0 c1 c2 c3 hb0 hb1 hb2 hb3 hnw0 hnw1
    hnw2 hnw3
  simp only [fscanf4s, hskip, hscan]
  norm_num

theorem readBE32_eval (bytes : List Nat) (pos : Nat) (b0 b1 b2 b3 : Nat)
    (hb0 : byteAt bytes pos = some b0)
    (hb1 : byteAt bytes (pos + 1) = some b1)
    (hb2 : byteAt bytes (pos + 2) = some b2)
    (hb3 : byteAt bytes (pos + 3) = some b3) :
    readBE32 bytes pos =
      some (((b0 * 256 + b1) * 256 + b2) * 256 + b3, pos + 4) := by
  simp only [readBE32, hb0, hb1, hb2, hb3]

theorem findTrackChunk_found (bytes : List Nat) (pos fuel tb : Nat)
    (hmagic : fscanf4s bytes pos = some ([77, 84, 114, 107], pos + 4))
    (hlen : readBE32 bytes (pos + 4) = some (tb, pos + 8)) :
    findTrackChunk bytes pos (fuel + 1) = some (tb, pos + 8) := by
  simp only [findTrackChunk, hmagic, hlen]
  norm_num

/-- An MTrk chunk holding one full note event `00 s k v` followed by n
events `00 k v` that omit the status byte via running status; the declared
chunk length is 4 + 3n. -/
def running_status_track (n s k v : Nat) : List Nat :=
  [77, 84, 114, 107,
   (4 + 3 * n) / 16777216, (4 + 3 * n) / 65536,
   (4 + 3 * n) / 256, 4 + 3 * n,
   0, s, k, v] ++ (List.replicate n [0, k, v]).flatten

set_option maxRecDepth 4096 in
theorem c7_partA (n s k v : Nat) (suf : List Nat) (hs : s < 256)
    (hnib : s &&& 240 = 128 ∨ s &&& 240 = 144) (hk : k < 128)
    (hv : v < 256) (ht : 4 + 3 * n < 4294967296) :
    parse_next_track (running_status_track n s k v ++ suf) 0 =
      some (List.replicate (n + 1) (.channel_voice 0 s k v),
        12 + 3 * n) := by
  have hf : fscanf4s (running_status_track n s k v ++ suf) 0 =
      some ([77, 84, 114, 107], 0 + 4) :=
    fscanf4s_read4 (running_status_track n s k v ++ suf) 0 77 84 114 107
      rfl rfl rfl rfl (by decide) (by decide) (by decide) (by decide)
  have hr : readBE32 (running_status_track n s k v ++ suf) (0 + 4) =
      some (4 + 3 * n, 0 + 8) := by
    have h := readBE32_eval (running_status_track n s k v ++ suf) 4
      ((4 + 3 * n) / 16777216 % 256) ((4 + 3 * n) / 65536 % 256)
      ((4 + 3 * n) / 256 % 256) ((4 + 3 * n) % 256) rfl rfl rfl rfl
    rw [show (0 + 4 : Nat) = 4 from rfl, h]
    simp only [Option.some.injEq, Prod.mk.injEq]
    have e1 : (4 + 3 * n) / 65536 / 256 = (4 + 3 * n) / 16777216 := by
      rw [Nat.div_div_eq_div_mul]
    have e2 : (4 + 3 * n) / 256 / 256 = (4 + 3 * n) / 65536 := by
      rw [Nat.div_div_eq_div_mul]
    have e3 : (4 + 3 * n) / 16777216 < 256 := by omega
    exact ⟨by omega, trivial⟩
  have hchunk := findTrackChunk_found (running_status_track n s k v ++ suf) 0
    (running_status_track n s k v ++ suf).length (4 + 3 * n) hf hr
  unfold parse_next_track
  rw [hchunk]
  have hb9 : byteAt (running_status_track n s k v ++ suf) (8 + 1) = some s := by
    show some (s % 256) = some s
    rw [Nat.mod_eq_of_lt hs]
  have hb10 : byteAt (running_status_track n s k v ++ suf) (8 + 2) = some k := by
    show some (k % 256) = some k
    rw [Nat.mod_eq_of_lt (by omega)]
  have hb11 : byteAt (running_status_track n s k v ++ suf) (8 + 3) = some v := by
    show some (v % 256) = some v
    rw [Nat.mod_eq_of_lt hv]
  have hev := get_next_midi_event_status (running_status_track n s k v ++ suf) 8
    0 0 s k v rfl hb9 hb10 hb11 hs hnib
  rw [wrap32_zero_add] at hev
  show trackLoop (running_status_track n s k v ++ suf) (8 + (4 + 3 * n)) 8 0 0 []
    ((4 + 3 * n) + 1) = _
  rw [trackLoop_cons _ _ _ _ _ _ _ _ _ _ _ (by omega) hev]
  simp only [List.nil_append]
  have hsplit : running_status_track n s k v =
      [77, 84, 114, 107, (4 + 3 * n) / 16777216, (4 + 3 * n) / 65536,
       (4 + 3 * n) / 256, 4 + 3 * n, 0, s, k, v] ++
        (List.replicate n [0, k, v]).flatten := rfl
  have hlen12 : ([77, 84, 114, 107, (4 + 3 * n) / 16777216,
      (4 + 3 * n) / 65536, (4 + 3 * n) / 256, 4 + 3 * n, 0, s, k,
      v] : List Nat).length = 12 := by simp
  have hgoal := trackLoop_running s k v suf hs hnib hk hv n
    [77, 84, 114, 107, (4 + 3 * n) / 16777216, (4 + 3 * n) / 65536,
     (4 + 3 * n) / 256, 4 + 3 * n, 0, s, k, v]
    [Midievent.channel_voice 0 s k v] (4 + 3 * n) (by omega)
  rw [hlen12] at hgoal
  rw [show 8 + (4 + 3 * n) = 12 + 3 * n from by omega]
  rw [show (8 + 4 : Nat) = 12 from rfl]
  rw [← hsplit] at hgoal
  rw [hgoal]
  simp [List.replicate_succ]

/-- An MTrk chunk of 3 declared bytes starting directly with a data byte:
its event can only be parsed through the running-status register. -/
def second_track (k2 v2 : Nat) : List Nat :=
  [77, 84, 114, 107, 0, 0, 0, 3, 0, k2, v2]

theorem rst_length (n s k v : Nat) :
    (running_status_track n s k v).length = 12 + 3 * n := by
  simp [running_status_track, List.length_flatten, List.map_replicate]
  omega

theorem c7_partB (n s k v k2 v2 : Nat) (hs : s < 256)
    (hnib : s &&& 240 = 128 ∨ s &&& 240 = 144) (hk : k < 128)
    (hv : v < 256) (hk2 : k2 < 128) (ht : 4 + 3 * n < 4294967296) :
    parseTracks (running_status_track n s k v ++ second_track k2 v2) 0
        [] 2 =
      some (List.replicate (n + 1) (.channel_voice 0 s k v),
        12 + 3 * n + 11) := by
  have hlen := rst_length n s k v
  have h1 := c7_partA n s k v (second_track k2 v2) hs hnib hk hv ht
  -- the second track parse, at the cursor position after track one
  have hpos : ∀ j : Nat,
      byteAt (running_status_track n s k v ++ second_track k2 v2)
        (12 + 3 * n + j) = byteAt (second_track k2 v2) j := by
    intro j
    have h := byteAt_append (running_status_track n s k v)
      (second_track k2 v2) j
    rwa [hlen] at h
  have hf2 : fscanf4s (running_status_track n s k v ++ second_track k2 v2)
      (12 + 3 * n) = some ([77, 84, 114, 107], (12 + 3 * n) + 4) :=
    fscanf4s_read4 _ (12 + 3 * n) 77 84 114 107
      (by rw [show 12 + 3 * n = 12 + 3 * n + 0 from by omega, hpos] <;>
        rfl)
      (by rw [hpos] <;> rfl) (by rw [hpos] <;> rfl)
      (by rw [hpos] <;> rfl)
      (by decide) (by decide) (by decide) (by decide)
  have hr2 : readBE32 (running_status_track n s k v ++ second_track k2 v2)
      ((12 + 3 * n) + 4) = some (3, (12 + 3 * n) + 8) := by
    have h := readBE32_eval _ ((12 + 3 * n) + 4) 0 0 0 3
      (by rw [hpos] <;> rfl)
      (by rw [show 12 + 3 * n + 4 + 1 = 12 + 3 * n + 5 from by omega,
        hpos] <;> rfl)
      (by rw [show 12 + 3 * n + 4 + 2 = 12 + 3 * n + 6 from by omega,
        hpos] <;> rfl)
      (by rw [show 12 + 3 * n + 4 + 3 = 12 + 3 * n + 7 from by omega,
        hpos] <;> rfl)
    rw [h]
  have hchunk2 := findTrackChunk_found
    (running_status_track n s k v ++ second_track k2 v2) (12 + 3 * n)
    (running_status_track n s k v ++ second_track k2 v2).length 3 hf2 hr2
  have hskipev := get_next_midi_event_data_skip
    (running_status_track n s k v ++ second_track k2 v2) (12 + 3 * n + 8)
    0 k2
    (by rw [hpos] <;> rfl)
    (by rw [show 12 + 3 * n + 8 + 1 = 12 + 3 * n + 9 from by omega,
      hpos]
        show some (k2 % 256) = some k2
        rw [Nat.mod_eq_of_lt (by omega)])
    hk2
  have h2 : parse_next_track
      (running_status_track n s k v ++ second_track k2 v2)
      (12 + 3 * n) = some ([], 12 + 3 * n + 11) := by
    unfold parse_next_track
    rw [hchunk2]
    show trackLoop _ ((12 + 3 * n) + 8 + 3) ((12 + 3 * n) + 8) 0 0 []
      (3 + 1) = _
    rw [trackLoop_skip2 _ _ _ _ _ _ _ _ _ _ (by omega) hskipev]
    rw [trackLoop_done _ _ _ _ _ _ _ (by omega)]
  show (match parse_next_track
      (running_status_track n s k v ++ second_track k2 v2) 0 with
    | none => none
    | some (evs, pos2) => parseTracks
        (running_status_track n s k v ++ second_track k2 v2) pos2
        ([] ++ evs) 1) = _
  rw [h1]
  show (match parse_next_track
      (running_status_track n s k v ++ second_track k2 v2) (12 + 3 * n) with
    | none => none
    | some (evs, pos2) => parseTracks
        (running_status_track n s k v ++ second_track k2 v2) pos2
        ([] ++ List.replicate (n + 1) (Midievent.channel_voice 0 s k v) ++
          evs) 0) = _
  rw [h2]
  simp [parseTracks]

/-- C7: a track encoding 1 + n note events that share one status byte
(the n later events omit it via running status) parses to exactly 1 + n
channel-voice events, all carrying that status byte — whatever bytes follow
the track chunk.  And the register does not carry across track boundaries:
parsing the two-chunk sequence in which the second chunk begins directly
with a data byte yields only the events of the first chunk, because
`parse_next_track` resets the register to zero at each track start
(main.c:390), making the stray data byte resolve to status 0 and be
skipped. -/
theorem c7_running_status_n_events (n s k v k2 v2 : Nat) (hs : s < 256)
    (hnib : s &&& 240 = 128 ∨ s &&& 240 = 144) (hk : k < 128)
    (hv : v < 256) (hk2 : k2 < 128) (ht : 4 + 3 * n < 4294967296) :
    (∀ suf, parse_next_track (running_status_track n s k v ++ suf) 0 =
      some (List.replicate (n + 1) (.channel_voice 0 s k v),
        12 + 3 * n)) ∧
    parseTracks (running_status_track n s k v ++ second_track k2 v2) 0
        [] 2 =
      some (List.replicate (n + 1) (.channel_voice 0 s k v),
        12 + 3 * n + 11) :=
  ⟨fun suf => c7_partA n s k v suf hs hnib hk hv ht,
   c7_partB n s k v k2 v2 hs hnib hk hv hk2 ht⟩

/-- Witness for C7: three shared-status note-on events, then a second track
that would only produce an event if running status carried over. -/
theorem c7_running_status_witness :
    (parse_next_track (running_status_track 2 144 60 100 ++ []) 0 =
      some (List.replicate 3 (.channel_voice 0 144 60 100), 18)) ∧
    parseTracks (running_status_track 2 144 60 100 ++ second_track 61 50)
        0 [] 2 =
      some (List.replicate 3 (.channel_voice 0 144 60 100), 29) :=
  ⟨(c7_running_status_n_events 2 144 60 100 61 50 (by decide) (by decide)
      (by decide) (by decide) (by decide) (by decide)).1 [],
   (c7_running_status_n_events 2 144 60 100 61 50 (by decide) (by decide)
      (by decide) (by decide) (by decide) (by decide)).2⟩


theorem lightsLoop_dry_no_out (events : List Midievent) (first_ticks : Int) :
    ∀ (fuel idx : Nat) (pending : NoteSet),
      (lightsLoop true events first_ticks idx pending fuel).2.2 = [] := by
  intro fuel
  induction fuel with
  | zero => intro idx pending; rfl
  | succ f ih =>
    intro idx pending
    simp only [lightsLoop]
    match events[idx]? with
    | none => rfl
    | some me =>
      simp only [not_true, and_false, if_false]
      match events[idx + 1]? with
      | none => rfl
      | some me2 =>
        by_cases hle : me2.at_ticks ≤ first_ticks
        · simp only [if_pos hle, ih]
          rfl
        · simp only [if_neg hle]

theorem turn_on_dry_no_out (events : List Midievent) (idx : Nat)
    (pending : NoteSet) :
    (turn_on_next_lights true events idx pending).2.2 = [] := by
  unfold turn_on_next_lights
  match events[idx]? with
  | none => rfl
  | some me => exact lightsLoop_dry_no_out events me.at_ticks _ idx pending

theorem refill_dry_no_out (events : List Midievent) (st : PlaybackState) :
    (playback_refill true events st).2 = [] := by
  unfold playback_refill
  by_cases hp : notes_to_wait_for st.notes_waiting
  · simp [hp]
  · simp [hp, turn_on_dry_no_out]

theorem step4_dry_no_out (me : Midievent) (st : PlaybackState) :
    (step4_apply true me st).2 = [] := by
  unfold step4_apply
  match me with
  | .tempo_change _ t => rfl
  | .channel_voice _ b0 b1 b2 =>
    by_cases hc : b0 ≠ 144 ∧ b1 ≠ 128
    · simp [if_pos hc]
    · simp [if_neg hc]

theorem playbackAux_dry_step (ticks_pqn : Int) (events : List Midievent)
    (inputs : List (List Nat)) (f i : Nat) (st : PlaybackState)
    (me : Midievent) (h : events[i]? = some me) :
    playbackAux true ticks_pqn events inputs (f + 1) i st =
      match playbackAux true ticks_pqn events inputs f (i + 1)
          { (step4_apply true me (playback_refill true events st).1).1
            with current_at_ticks := me.at_ticks } with
      | none => none
      | some (stf, outs, wbs) =>
        some (stf, (playback_refill true events st).2 ++
          (step4_apply true me (playback_refill true events st).1).2 ++
          outs, .immediate :: wbs) := by
  have hw : ∀ (us : Int) (pending : NoteSet) (inp : List Nat),
      wait_for_event true us pending inp =
        (.immediate, some (pending, [])) := fun _ _ _ => rfl
  have hstate : ∀ (p : PlaybackState),
      ({ notes_waiting := p.notes_waiting,
         lighted_keys_index := p.lighted_keys_index,
         next_lighted_keys_index := p.next_lighted_keys_index,
         current_at_ticks := p.current_at_ticks,
         tempo_microseconds_pqn := p.tempo_microseconds_pqn } :
        PlaybackState) = p := fun p => rfl
  simp only [playbackAux, h, hw, hstate, List.append_nil,
    List.nil_append]

theorem playbackAux_dry (ticks_pqn : Int) (events : List Midievent)
    (inputs1 inputs2 : List (List Nat)) :
    ∀ (fuel i : Nat) (st : PlaybackState), events.length ≤ fuel + i →
      ∃ stf wbs,
        playbackAux true ticks_pqn events inputs1 fuel i st =
          some (stf, [], wbs) ∧
        playbackAux true ticks_pqn events inputs2 fuel i st =
          some (stf, [], wbs) ∧
        ∀ wb ∈ wbs, wb = .immediate := by
  intro fuel
  induction fuel with
  | zero =>
    intro i st hlen
    match h : events[i]? with
    | none =>
      refine ⟨st, [], ?_, ?_, by simp⟩ <;> simp [playbackAux, h]
    | some me =>
      have : i < events.length := (List.getElem?_eq_some.mp h).1
      omega
  | succ f ih =>
    intro i st hlen
    match h : events[i]? with
    | none =>
      refine ⟨st, [], ?_, ?_, by simp⟩ <;> simp [playbackAux, h]
    | some me =>
      rw [playbackAux_dry_step ticks_pqn events inputs1 f i st me h,
        playbackAux_dry_step ticks_pqn events inputs2 f i st me h]
      obtain ⟨stf, wbs, h1, h2, hall⟩ := ih (i + 1)
        { (step4_apply true me (playback_refill true events st).1).1
          with current_at_ticks := me.at_ticks } (by omega)
      rw [h1, h2]
      refine ⟨stf, .immediate :: wbs, ?_, ?_, ?_⟩
      · rw [refill_dry_no_out, step4_dry_no_out]
        simp
      · rw [refill_dry_no_out, step4_dry_no_out]
        simp
      · intro wb hwb
        rcases List.mem_cons.mp hwb with hwb | hwb
        · exact hwb
        · exact hall wb hwb

/-- C3 amended: under dry-run the playback loop always returns
successfully, writes no bytes to the device, its outcome does not depend on
device input at all (no reads), and every wait of the scheduler returns
immediately, without the natural tick timing the claim describes. -/
theorem c3_dry_run_amended (events : List Midievent) (ticks_pqn : Int)
    (inputs : List (List Nat)) (hpq : 0 < ticks_pqn) :
    ∃ stf wbs,
      playback_midievents true ticks_pqn events inputs =
        some (stf, [], wbs) ∧
      playback_midievents true ticks_pqn events inputs =
        playback_midievents true ticks_pqn events [] ∧
      ∀ wb ∈ wbs, wb = .immediate := by
  obtain ⟨stf, wbs, h1, h2, hall⟩ := playbackAux_dry ticks_pqn events
    inputs [] events.length 0 playback_init (by omega)
  exact ⟨stf, wbs, h1, by rw [playback_midievents, playback_midievents,
    h1, h2], hall⟩

/-- Witness for C3 amended at a concrete two-event accompaniment buffer. -/
theorem c3_dry_run_amended_witness :
    ∃ stf wbs,
      playback_midievents true 96
          [.channel_voice 0 145 40 80, .channel_voice 96 129 40 0]
          [[3]] =
        some (stf, [], wbs) ∧
      playback_midievents true 96
          [.channel_voice 0 145 40 80, .channel_voice 96 129 40 0]
          [[3]] =
        playback_midievents true 96
          [.channel_voice 0 145 40 80, .channel_voice 96 129 40 0] [] ∧
      ∀ wb ∈ wbs, wb = .immediate :=
  c3_dry_run_amended
    [.channel_voice 0 145 40 80, .channel_voice 96 129 40 0] 96 [[3]]
    (by decide)


theorem set_false_monotone (l : List Bool) (k : Nat)
    (h : (l.set k false).any (fun x => x) = true) :
    l.any (fun x => x) = true := by
  rw [List.any_eq_true] at h ⊢
  obtain ⟨x, hx, hxt⟩ := h
  rcases List.mem_or_eq_of_mem_set hx with hmem | hfalse
  · exact ⟨x, hmem, hxt⟩
  · simp [hfalse] at hxt

theorem processBytes_reached_empty :
    ∀ (input : List Nat) (pending : NoteSet) (buf : List Nat),
      (processBytes pending buf input).2.2 = true →
      notes_to_wait_for (processBytes pending buf input).1 = false := by
  intro input
  induction input with
  | nil => intro pending buf h; exact absurd h (by simp [processBytes])
  | cons b rest ih =>
    intro pending buf h
    by_cases hp : notes_to_wait_for pending
    · simp only [processBytes, hp, if_true] at h ⊢
      by_cases hlen : (buf ++ [b % 256]).length < 3
      · simp only [if_pos hlen] at h ⊢
        exact ih pending (buf ++ [b % 256]) h
      · simp only [if_neg hlen] at h ⊢
        match hm : buf ++ [b % 256] with
        | [s, d1, d2] =>
          rw [hm] at h
          by_cases hres : s &&& 240 ≠ 144 ∧ s &&& 240 ≠ 128
          · simp only [if_pos hres] at h ⊢
            exact ih pending [d1, d2] h
          · simp only [if_neg hres] at h ⊢
            by_cases hs90 : s == 144
            · simp only [hs90, if_true] at h ⊢
              by_cases hp2 : notes_to_wait_for
                  (pending.set (d1 &&& 127) false)
              · simp only [hp2, if_true] at h ⊢
                exact ih _ [] h
              · simp only [hp2, if_false] at h ⊢
                simpa using hp2
            · simp only [hs90, if_false] at h ⊢
              exact ih pending [] h
        | [] => rw [hm] at h; exact absurd h (by simp)
        | [x] => rw [hm] at h; exact absurd h (by simp)
        | [x, y] => rw [hm] at h; exact absurd h (by simp)
        | x :: y :: z :: w :: r =>
          rw [hm] at h; exact absurd h (by simp)
    · simp only [processBytes, hp] at h ⊢
      simpa using hp

theorem processBytes_monotone :
    ∀ (input : List Nat) (pending : NoteSet) (buf : List Nat),
      notes_to_wait_for (processBytes pending buf input).1 = true →
      notes_to_wait_for pending = true := by
  intro input
  induction input with
  | nil => intro pending buf h; simpa [processBytes] using h
  | cons b rest ih =>
    intro pending buf h
    by_cases hp : notes_to_wait_for pending
    · exact hp
    · simp only [processBytes, hp] at h
      simpa using h

theorem turn_on_none (dry : Bool) (events : List Midievent) (idx : Nat)
    (pending : NoteSet) (h : events[idx]? = none) :
    turn_on_next_lights dry events idx pending = (idx, pending, []) := by
  unfold turn_on_next_lights
  rw [h]

theorem step4_preserves (dry : Bool) (me : Midievent) (st : PlaybackState) :
    (step4_apply dry me st).1.notes_waiting = st.notes_waiting ∧
    (step4_apply dry me st).1.lighted_keys_index =
      st.lighted_keys_index := by
  unfold step4_apply
  match me with
  | .tempo_change _ t => exact ⟨rfl, rfl⟩
  | .channel_voice _ b0 b1 b2 =>
    by_cases hc : b0 ≠ 144 ∧ b1 ≠ 128
    · simp [if_pos hc]
    · simp [if_neg hc]

theorem wait_success (us : Int) (pending : NoteSet) (input : List Nat)
    (wb : WaitBehavior) (p2 : NoteSet) (wouts : List (List Nat))
    (h : wait_for_event false us pending input = (wb, some (p2, wouts))) :
    (us < 0 → notes_to_wait_for p2 = false) ∧
    (notes_to_wait_for p2 = true → notes_to_wait_for pending = true) := by
  unfold wait_for_event at h
  simp only [Bool.false_eq_true, if_false] at h
  by_cases hge : us ≥ 0
  · rw [if_pos hge] at h
    constructor
    · intro hlt; omega
    · intro hp2
      have := processBytes_monotone input pending []
      cases h
      exact this (by exact hp2)
  · rw [if_neg hge] at h
    by_cases hr : (processBytes pending [] input).2.2
    · rw [if_pos hr] at h
      cases h
      constructor
      · intro _
        exact processBytes_reached_empty input pending [] hr
      · intro hp2
        exact processBytes_monotone input pending [] hp2
    · rw [if_neg hr] at h
      cases h

theorem playbackAux_pending_invariant (ticks_pqn : Int)
    (events : List Midievent) (inputs : List (List Nat)) :
    ∀ (fuel i : Nat) (st stf : PlaybackState) (outs : List (List Nat))
      (wbs : List WaitBehavior),
      (notes_to_wait_for st.notes_waiting = true →
        i ≤ st.lighted_keys_index ∧
        st.lighted_keys_index < events.length) →
      playbackAux false ticks_pqn events inputs fuel i st =
        some (stf, outs, wbs) →
      notes_to_wait_for stf.notes_waiting = false := by
  intro fuel
  induction fuel with
  | zero =>
    intro i st stf outs wbs hinv h
    match he : events[i]? with
    | none =>
      simp only [playbackAux, he, Option.some.injEq] at h
      obtain ⟨rfl, -, -⟩ := h
      by_contra hc
      have h2 := hinv (by simpa using hc)
      have h3 : events.length ≤ i := List.getElem?_eq_none_iff.mp he
      omega
    | some me =>
      simp only [playbackAux, he] at h
      exact Option.noConfusion h
  | succ f ih =>
    intro i st stf outs wbs hinv h
    match he : events[i]? with
    | none =>
      simp only [playbackAux, he, Option.some.injEq] at h
      obtain ⟨rfl, -, -⟩ := h
      by_contra hc
      have h2 := hinv (by simpa using hc)
      have h3 : events.length ≤ i := List.getElem?_eq_none_iff.mp he
      omega
    | some me =>
      have hstate : ∀ (p : PlaybackState),
          ({ notes_waiting := p.notes_waiting,
             lighted_keys_index := p.lighted_keys_index,
             next_lighted_keys_index := p.next_lighted_keys_index,
             current_at_ticks := p.current_at_ticks,
             tempo_microseconds_pqn := p.tempo_microseconds_pqn } :
            PlaybackState) = p := fun p => rfl
      simp only [playbackAux, he, hstate] at h
      rcases hw : wait_for_event false
          (playback_wait_budget ticks_pqn i
            (playback_refill false events st).1 me.at_ticks)
          (playback_refill false events st).1.notes_waiting
          (inputs.getD i []) with ⟨wb1, o⟩
      rw [hw] at h
      match o with
      | none => simp at h
      | some (p2, wouts) =>
        simp only [] at h
        rcases hrec : playbackAux false ticks_pqn events inputs f (i + 1)
            { (step4_apply false me
                { (playback_refill false events st).1 with
                  notes_waiting := p2 }).1 with
              current_at_ticks := me.at_ticks } with _ | res
        · rw [hrec] at h
          simp at h
        · rw [hrec] at h
          rcases res with ⟨stf2, outs2, wbs2⟩
          simp only [Option.some.injEq] at h
          obtain ⟨rfl, -, -⟩ := h
          apply ih (i + 1) _ _ _ _ _ hrec
          intro hp4
          have hpres := step4_preserves false me
            { (playback_refill false events st).1 with
              notes_waiting := p2 }
          have hp2 : notes_to_wait_for p2 = true := by
            have e1 : ({ (step4_apply false me
                { (playback_refill false events st).1 with
                  notes_waiting := p2 }).1 with
                current_at_ticks := me.at_ticks }).notes_waiting =
              (step4_apply false me
                { (playback_refill false events st).1 with
                  notes_waiting := p2 }).1.notes_waiting := rfl
            rw [e1, hpres.1] at hp4
            exact hp4
          have hws := wait_success _ _ _ _ _ _ hw
          have hpend : notes_to_wait_for
              (playback_refill false events st).1.notes_waiting = true :=
            hws.2 hp2
          have hlight : i <
              (playback_refill false events st).1.lighted_keys_index := by
            by_contra hc
            push_neg at hc
            have hneg : playback_wait_budget ticks_pqn i
                (playback_refill false events st).1 me.at_ticks = -1 := by
              unfold playback_wait_budget
              rw [if_pos hc]
            have := hws.1 (by rw [hneg]; omega)
            rw [this] at hp2
            cases hp2
          have hlen : (playback_refill false events st).1.lighted_keys_index
              < events.length := by
            unfold playback_refill at hpend ⊢
            by_cases hp0 : notes_to_wait_for st.notes_waiting
            · simp only [hp0, if_true] at hpend ⊢
              exact (hinv hp0).2
            · simp only [hp0, Bool.false_eq_true, if_false] at hpend ⊢
              match he2 : events[st.next_lighted_keys_index]? with
              | none =>
                rw [turn_on_none false events _ _ he2] at hpend
                exact absurd hpend hp0
              | some me2 =>
                exact (List.getElem?_eq_some.mp he2).1
          have e2 : ({ (step4_apply false me
              { (playback_refill false events st).1 with
                notes_waiting := p2 }).1 with
              current_at_ticks := me.at_ticks }).lighted_keys_index =
            (step4_apply false me
              { (playback_refill false events st).1 with
                notes_waiting := p2 }).1.lighted_keys_index := rfl
          have e3 : ({ (playback_refill false events st).1 with
              notes_waiting := p2 } :
              PlaybackState).lighted_keys_index =
            (playback_refill false events st).1.lighted_keys_index := rfl
          rw [e2, hpres.2, e3]
          constructor
          · omega
          · exact hlen

/-- C5 amended: the pending-note set is all-false when playback starts, and
in a normal (non-dry-run) run, whenever `playback_midievents` returns
successfully the pending-note set is empty again — for every event buffer
and every device-input oracle.  (Under dry-run the set can be left
non-empty; see the counterexample.) -/
theorem c5_pending_empty_on_success (events : List Midievent)
    (ticks_pqn : Int) (inputs : List (List Nat)) (stf : PlaybackState)
    (outs : List (List Nat)) (wbs : List WaitBehavior)
    (h : playback_midievents false ticks_pqn events inputs =
      some (stf, outs, wbs)) :
    playback_init.notes_waiting = List.replicate 128 false ∧
    notes_to_wait_for stf.notes_waiting = false := by
  refine ⟨rfl, ?_⟩
  apply playbackAux_pending_invariant ticks_pqn events inputs
    events.length 0 playback_init stf outs wbs ?_ h
  intro hp
  exact absurd hp (by decide)

/-- Witness for C5 amended: a one-event channel-2 playback. -/
theorem c5_pending_empty_witness :
    playback_init.notes_waiting = List.replicate 128 false ∧
    notes_to_wait_for
      (⟨List.replicate 128 false, 0, 1, 0, 500000⟩ :
        PlaybackState).notes_waiting = false :=
  c5_pending_empty_on_success [.channel_voice 0 145 60 100] 96 [[7]]
    ⟨List.replicate 128 false, 0, 1, 0, 500000⟩ [[145, 60, 100]]
    [.pollInfinite] (by decide)


theorem set_true_any (n k : Nat) (hk : k < n) :
    ((List.replicate n false).set k true).any (fun x => x) = true := by
  rw [List.any_eq_true]
  have hlen : k < ((List.replicate n false).set k true).length := by
    simp
    omega
  have h2 : ((List.replicate n false).set k true)[k] = true := by
    apply List.getElem_set_self
  exact ⟨((List.replicate n false).set k true)[k],
    List.getElem_mem hlen, h2⟩

theorem replicate_set_false : ∀ (n k : Nat),
    (List.replicate n false).set k false = List.replicate n false := by
  intro n
  induction n with
  | zero => intro k; rfl
  | succ m ih =>
    intro k
    cases k with
    | zero => simp [List.replicate_succ]
    | succ j => simp [List.replicate_succ, List.set]

theorem playback_one_ch1_noteon (t : Int) (b1 b2 : Nat) (hb1 : b1 < 256) :
    playback_midievents false 96 [.channel_voice t 144 b1 b2]
        [[144, b1, 0]] =
      some (⟨List.replicate 128 false, 0, 1, t, 500000⟩,
        [[144, b1, 1], [128, b1, 0]], [.pollInfinite]) := by
  have hk : b1 &&& 127 < 128 := by
    have h := Nat.and_pow_two_sub_one_eq_mod b1 7
    norm_num at h
    omega
  have hmod : b1 % 256 = b1 := Nat.mod_eq_of_lt (by omega)
  have hrep : notes_to_wait_for (List.replicate 128 false) = false := by
    decide
  have hany : notes_to_wait_for
      ((List.replicate 128 false).set (b1 &&& 127) true) = true :=
    set_true_any 128 (b1 &&& 127) hk
  have hrefill : playback_refill false
      [Midievent.channel_voice t 144 b1 b2] playback_init =
      (⟨(List.replicate 128 false).set (b1 &&& 127) true, 0, 1, 0,
        500000⟩, [[144, b1, 1]]) := rfl
  have hpb : processBytes
      ((List.replicate 128 false).set (b1 &&& 127) true) []
      [144, b1, 0] = (List.replicate 128 false, [[128, b1, 0]], true) := by
    simp only [processBytes, hany, if_true, hmod, List.nil_append,
      List.cons_append, List.length_cons, List.length_nil]
    norm_num
    simp only [List.set_set, replicate_set_false, hrep,
      Bool.false_eq_true, if_false]
    rw [if_neg (by decide)]
  have hwait : wait_for_event false (-1)
      ((List.replicate 128 false).set (b1 &&& 127) true) [144, b1, 0] =
      (.pollInfinite, some (List.replicate 128 false, [[128, b1, 0]])) := by
    unfold wait_for_event
    rw [hpb]
    norm_num
  show playbackAux false 96 [Midievent.channel_voice t 144 b1 b2]
    [[144, b1, 0]] 1 0 playback_init = _
  simp only [playbackAux, List.getElem?_cons_zero, List.getElem?_cons_succ,
    List.getElem?_nil]
  rw [hrefill]
  have hbud : playback_wait_budget 96 0
      ((⟨(List.replicate 128 false).set (b1 &&& 127) true, 0, 1, 0,
        500000⟩, [[144, b1, 1]]) :
        PlaybackState × List (List Nat)).1
      ((Midievent.channel_voice t 144 b1 b2).at_ticks) = -1 := rfl
  have hgd : ([[144, b1, 0]] : List (List Nat)).getD 0 [] =
      [144, b1, 0] := rfl
  rw [hbud, hgd]
  rw [show ((⟨(List.replicate 128 false).set (b1 &&& 127) true, 0, 1, 0,
      500000⟩, [[144, b1, 1]]) :
      PlaybackState × List (List Nat)).1.notes_waiting =
    (List.replicate 128 false).set (b1 &&& 127) true from rfl]
  rw [hwait]
  rfl

theorem playback_one_other_voice (t : Int) (b0 b1 b2 : Nat)
    (hb0 : (b0 == 144) = false) :
    playback_midievents false 96 [.channel_voice t b0 b1 b2]
        [[144, b1, 0]] =
      some (⟨List.replicate 128 false, 0, 1, t, 500000⟩,
        if b1 = 128 then [] else [[b0, b1, b2]], [.pollInfinite]) := by
  have hrep : notes_to_wait_for (List.replicate 128 false) = false := by
    decide
  have hrefill : playback_refill false
      [Midievent.channel_voice t b0 b1 b2] playback_init =
      (⟨List.replicate 128 false, 0, 1, 0, 500000⟩, []) := by
    have h0 : notes_to_wait_for playback_init.notes_waiting = false := by
      decide
    unfold playback_refill
    rw [h0]
    have hto : turn_on_next_lights false [.channel_voice t b0 b1 b2] 0
        (List.replicate 128 false) =
        (1, List.replicate 128 false, []) := by
      unfold turn_on_next_lights lightsLoop
      simp only [Midievent.raw0, hb0, List.getElem?_cons_zero,
        List.getElem?_cons_succ, List.getElem?_nil, Bool.false_eq_true,
        if_false, and_false, false_and]
    simp only [Bool.false_eq_true, if_false]
    rw [show playback_init.next_lighted_keys_index = 0 from rfl,
      show playback_init.notes_waiting = List.replicate 128 false from
        rfl, hto]
    rfl
  have hpb : processBytes (List.replicate 128 false) [] [144, b1, 0] =
      (List.replicate 128 false, [], true) := by
    simp only [processBytes, hrep, Bool.false_eq_true, if_false]
  have hwait : wait_for_event false (-1) (List.replicate 128 false)
      [144, b1, 0] =
      (.pollInfinite, some (List.replicate 128 false, [])) := by
    unfold wait_for_event
    rw [hpb]
    norm_num
  show playbackAux false 96 [Midievent.channel_voice t b0 b1 b2]
    [[144, b1, 0]] 1 0 playback_init = _
  simp only [playbackAux, List.getElem?_cons_zero, List.getElem?_cons_succ,
    List.getElem?_nil]
  rw [hrefill]
  have hbud : playback_wait_budget 96 0
      ((⟨List.replicate 128 false, 0, 1, 0, 500000⟩, ([] : List (List Nat))) :
        PlaybackState × List (List Nat)).1
      ((Midievent.channel_voice t b0 b1 b2).at_ticks) = -1 := rfl
  have hgd : ([[144, b1, 0]] : List (List Nat)).getD 0 [] =
      [144, b1, 0] := rfl
  rw [hbud, hgd]
  rw [show ((⟨List.replicate 128 false, 0, 1, 0, 500000⟩,
      ([] : List (List Nat))) :
      PlaybackState × List (List Nat)).1.notes_waiting =
    List.replicate 128 false from rfl]
  rw [hwait]
  have hguard : step4_apply false (Midievent.channel_voice t b0 b1 b2)
      ⟨List.replicate 128 false, 0, 1, 0, 500000⟩ =
      (⟨List.replicate 128 false, 0, 1, 0, 500000⟩,
        if b1 = 128 then [] else [[b0, b1, b2]]) := by
    simp only [step4_apply]
    by_cases hb128 : b1 = 128
    · rw [if_neg (fun hc => hc.2 hb128), if_pos hb128]
    · rw [if_pos ⟨by simpa using hb0, hb128⟩, if_neg hb128]
      norm_num
  show (match playbackAux false 96 [Midievent.channel_voice t b0 b1 b2]
      [[144, b1, 0]] 0 1
      { (step4_apply false (Midievent.channel_voice t b0 b1 b2)
          ⟨List.replicate 128 false, 0, 1, 0, 500000⟩).1 with
        current_at_ticks :=
          (Midievent.channel_voice t b0 b1 b2).at_ticks } with
    | none => none
    | some (stf, outs, wbs) =>
      some (stf, [] ++ [] ++ (step4_apply false
        (Midievent.channel_voice t b0 b1 b2)
        ⟨List.replicate 128 false, 0, 1, 0, 500000⟩).2 ++ outs,
        WaitBehavior.pollInfinite :: wbs)) = _
  rw [hguard]
  by_cases hb128 : b1 = 128
  · simp only [hb128, if_pos rfl]
    rfl
  · simp only [if_neg hb128]
    rfl

/-- C2 amended: playing a buffer holding one channel-voice event whose
data byte is any byte value (b1 < 256), with the input oracle delivering
the matching channel-1 key press, step 4 writes the 3-byte message exactly
when the guard of main.c:682 allows it: byte 0 not equal to 0x90 AND byte
1 not equal to 0x80.  Both halves of the guard are exercised: a channel-1
note-on (byte 0 exactly 0x90) is NOT written a second time — the only
bytes the device receives for it are the velocity-1 light echo and the
note-off mirror of the user input — and an event whose byte 1 is exactly
0x80 (b1 = 128) is suppressed even when its byte 0 differs from 0x90. -/
theorem c2_step4_write_guard_amended (t : Int) (b0 b1 b2 : Nat)
    (hb1 : b1 < 256) :
    playback_midievents false 96 [.channel_voice t b0 b1 b2]
        [[144, b1, 0]] =
      some (⟨List.replicate 128 false, 0, 1, t, 500000⟩,
        (if b0 = 144 then [[144, b1, 1], [128, b1, 0]] else []) ++
          (if b0 ≠ 144 ∧ b1 ≠ 128 then [[b0, b1, b2]] else []),
        [.pollInfinite]) := by
  by_cases hb0 : b0 = 144
  · subst hb0
    rw [if_pos rfl, if_neg (by simp)]
    simpa using playback_one_ch1_noteon t b1 b2 hb1
  · rw [if_neg hb0]
    by_cases hb128 : b1 = 128
    · rw [if_neg (fun hc => hc.2 hb128)]
      simpa [hb128] using
        playback_one_other_voice t b0 b1 b2 (by simpa using hb0)
    · rw [if_pos ⟨hb0, hb128⟩]
      simpa [hb128] using
        playback_one_other_voice t b0 b1 b2 (by simpa using hb0)

/-- Witness for C2 amended at a channel-2 note-on event. -/
theorem c2_step4_write_guard_witness :
    playback_midievents false 96 [.channel_voice 0 145 60 100]
        [[144, 60, 0]] =
      some (⟨List.replicate 128 false, 0, 1, 0, 500000⟩,
        (if (145 : Nat) = 144 then [[144, 60, 1], [128, 60, 0]]
         else []) ++
          (if (145 : Nat) ≠ 144 ∧ (60 : Nat) ≠ 128 then [[145, 60, 100]]
           else []),
        [.pollInfinite]) :=
  c2_step4_write_guard_amended 0 145 60 100 (by decide)

/-! Supporting lemmas for the header-parser characterization (claim C9). -/

/-- Every position strictly before the whitespace-skip result holds a
whitespace byte. -/
theorem skipWs_ws (bytes : List Nat) :
    ∀ (fuel pos j : Nat), pos ≤ j → j < skipWs bytes pos fuel →
      ∃ b, byteAt bytes j = some b ∧ isWsChar b = true := by
  intro fuel
  induction fuel with
  | zero =>
    intro pos j h1 h2
    simp only [skipWs] at h2
    omega
  | succ f ih =>
    intro pos j h1 h2
    simp only [skipWs] at h2
    split at h2
    · omega
    · rename_i b hb
      split at h2
      · rename_i hws
        by_cases hej : j = pos
        · exact ⟨b, hej ▸ hb, hws⟩
        · exact ih (pos + 1) j (by omega) h2
      · omega

/-- Conversely, if every byte before `p` is whitespace and the byte at `p`
is not, the whitespace skip stops exactly at `p` (given enough fuel). -/
theorem skipWs_exact (bytes : List Nat) :
    ∀ (fuel pos p : Nat), pos ≤ p → p - pos ≤ fuel →
      (∀ j, pos ≤ j → j < p → ∃ b, byteAt bytes j = some b ∧
        isWsChar b = true) →
      (∃ c, byteAt bytes p = some c ∧ isWsChar c = false) →
      skipWs bytes pos fuel = p := by
  intro fuel
  induction fuel with
  | zero =>
    intro pos p h1 h2 hws hc
    simp only [skipWs]
    omega
  | succ f ih =>
    intro pos p h1 h2 hws hc
    by_cases hep : pos = p
    · subst hep
      obtain ⟨c, hc1, hc2⟩ := hc
      simp only [skipWs, hc1, hc2, Bool.false_eq_true, if_false]
    · obtain ⟨b, hb1, hb2⟩ := hws pos (by omega) (by omega)
      simp only [skipWs, hb1, hb2, if_true]
      exact ih (pos + 1) p (by omega) (by omega)
        (fun j hj1 hj2 => hws j (by omega) hj2) hc

/-- Inversion for a full four-character scan: the four collected bytes sit
at four consecutive positions, none is whitespace, and the cursor advances
by exactly four. -/
theorem scan4_inv (bytes : List Nat) (pos pos2 c0 c1 c2 c3 : Nat)
    (h : scan4Loop bytes pos [] 4 = ([c0, c1, c2, c3], pos2)) :
    byteAt bytes pos = some c0 ∧ byteAt bytes (pos + 1) = some c1 ∧
    byteAt bytes (pos + 2) = some c2 ∧ byteAt bytes (pos + 3) = some c3 ∧
    isWsChar c0 = false ∧ isWsChar c1 = false ∧ isWsChar c2 = false ∧
    isWsChar c3 = false ∧ pos2 = pos + 4 := by
  simp only [scan4Loop] at h
  split at h
  · simp at h
  · rename_i b0 hb0
    split at h
    · simp at h
    · rename_i hw0
      split at h
      · simp at h
      · rename_i b1 hb1
        split at h
        · simp at h
        · rename_i hw1
          split at h
          · simp at h
          · rename_i b2 hb2
            split at h
            · simp at h
            · rename_i hw2
              split at h
              · simp at h
              · rename_i b3 hb3
                split at h
                · simp at h
                · rename_i hw3
                  simp only [List.nil_append, List.cons_append,
                    Prod.mk.injEq, List.cons.injEq, and_true] at h
                  obtain ⟨⟨e0, e1, e2, e3⟩, e5⟩ := h
                  subst e0; subst e1; subst e2; subst e3
                  rw [Bool.not_eq_true] at hw0 hw1 hw2 hw3
                  refine ⟨hb0, hb1, ?_, ?_, hw0, hw1, hw2, hw3, by omega⟩
                  · rw [show pos + 2 = pos + 1 + 1 from by omega]
                    exact hb2
                  · rw [show pos + 3 = pos + 1 + 1 + 1 from by omega]
                    exact hb3

/-- A successfully read byte lies inside the file. -/
theorem byteAt_some_lt (bytes : List Nat) (j b : Nat)
    (h : byteAt bytes j = some b) : j < bytes.length := by
  by_contra hc
  rw [byteAt, List.get?_eq_none.mpr (by omega)] at h
  simp at h

/-- A successful big-endian 32-bit read advances the cursor by four. -/
theorem readBE32_pos_eq (bytes : List Nat) (pos v q : Nat)
    (h : readBE32 bytes pos = some (v, q)) : q = pos + 4 := by
  simp only [readBE32] at h
  split at h
  · simp only [Option.some.injEq, Prod.mk.injEq] at h
    exact h.2.symm
  · simp at h

/-- A successful big-endian 16-bit read advances the cursor by two. -/
theorem readBE16_pos_eq (bytes : List Nat) (pos v q : Nat)
    (h : readBE16 bytes pos = some (v, q)) : q = pos + 2 := by
  simp only [readBE16] at h
  split at h
  · simp only [Option.some.injEq, Prod.mk.injEq] at h
    exact h.2.symm
  · simp at h

/-- Soundness half of the header characterization: a successful parse
decomposes the file into a whitespace prefix, the MThd magic, and the
header fields, with all the guard conditions holding. -/
theorem parse_header_sound (bytes : List Nat) (r : Nat × Nat × Nat)
    (h : parse_smf_header bytes 0 = some r) :
    ∃ p L tc tpqn,
      (∀ j, j < p → ∃ b, byteAt bytes j = some b ∧ isWsChar b = true) ∧
      byteAt bytes p = some 77 ∧ byteAt bytes (p + 1) = some 84 ∧
      byteAt bytes (p + 2) = some 104 ∧ byteAt bytes (p + 3) = some 100 ∧
      readBE32 bytes (p + 4) = some (L, p + 8) ∧ 6 ≤ L ∧
      readBE16 bytes (p + 8) = some (1, p + 10) ∧
      readBE16 bytes (p + 10) = some (tc, p + 12) ∧
      readBE16 bytes (p + 12) = some (tpqn, p + 14) ∧
      tpqn &&& 32768 = 0 ∧ tpqn ≠ 0 ∧
      r = (tc, tpqn, p + 14 + (L - 6)) := by
  simp only [parse_smf_header] at h
  split at h
  · simp at h
  · rename_i mthd pos1 hfs
    split at h
    · simp at h
    · rename_i hm
      split at h
      · simp at h
      · rename_i L pos2 hbe32
        split at h
        · simp at h
        · rename_i hL
          split at h
          · simp at h
          · rename_i fmt pos3 hfmt
            split at h
            · simp at h
            · rename_i hf1
              split at h
              · simp at h
              · rename_i tc pos4 htc
                split at h
                · simp at h
                · rename_i tpqn pos5 htp
                  split at h
                  · simp at h
                  · rename_i hmask
                    split at h
                    · simp at h
                    · rename_i hnz
                      rw [not_ne_iff] at hm hf1
                      subst hm
                      rw [not_lt] at hL
                      rw [not_ne_iff] at hmask
                      subst hf1
                      simp only [fscanf4s] at hfs
                      split at hfs
                      · simp at hfs
                      · rw [Option.some.injEq] at hfs
                        obtain ⟨hb0, hb1, hb2, hb3, hn0, hn1, hn2, hn3,
                          hpos1⟩ := scan4_inv bytes
                            (skipWs bytes 0 bytes.length) pos1 77 84 104 100
                            hfs
                        have hq2 := readBE32_pos_eq bytes pos1 L pos2 hbe32
                        have hq3 := readBE16_pos_eq bytes pos2 1 pos3 hfmt
                        have hq4 := readBE16_pos_eq bytes pos3 tc pos4 htc
                        have hq5 := readBE16_pos_eq bytes pos4 tpqn pos5 htp
                        refine ⟨skipWs bytes 0 bytes.length, L, tc, tpqn,
                          ?_, hb0, hb1, hb2, hb3, ?_, hL, ?_, ?_, ?_,
                          hmask, hnz, ?_⟩
                        · exact fun j hj =>
                            skipWs_ws bytes bytes.length 0 j (Nat.zero_le j) hj
                        · rw [show skipWs bytes 0 bytes.length + 4 = pos1
                            from by omega,
                            show skipWs bytes 0 bytes.length + 8 = pos2
                            from by omega]
                          exact hbe32
                        · rw [show skipWs bytes 0 bytes.length + 8 = pos2
                            from by omega,
                            show skipWs bytes 0 bytes.length + 10 = pos3
                            from by omega]
                          exact hfmt
                        · rw [show skipWs bytes 0 bytes.length + 10 = pos3
                            from by omega,
                            show skipWs bytes 0 bytes.length + 12 = pos4
                            from by omega]
                          exact htc
                        · rw [show skipWs bytes 0 bytes.length + 12 = pos4
                            from by omega,
                            show skipWs bytes 0 bytes.length + 14 = pos5
                            from by omega]
                          exact htp
                        · rw [Option.some.injEq] at h
                          rw [← h,
                            show skipWs bytes 0 bytes.length + 14 = pos5
                            from by omega]

/-- Completeness half: any file of that shape parses successfully, with
the parser resuming after the skipped surplus header bytes. -/
theorem parse_header_complete (bytes : List Nat) (p L tc tpqn : Nat)
    (hws : ∀ j, j < p → ∃ b, byteAt bytes j = some b ∧ isWsChar b = true)
    (h77 : byteAt bytes p = some 77)
    (h84 : byteAt bytes (p + 1) = some 84)
    (h104 : byteAt bytes (p + 2) = some 104)
    (h100 : byteAt bytes (p + 3) = some 100)
    (hbe32 : readBE32 bytes (p + 4) = some (L, p + 8)) (hL : 6 ≤ L)
    (hfmt : readBE16 bytes (p + 8) = some (1, p + 10))
    (htc : readBE16 bytes (p + 10) = some (tc, p + 12))
    (htp : readBE16 bytes (p + 12) = some (tpqn, p + 14))
    (hmask : tpqn &&& 32768 = 0) (hnz : tpqn ≠ 0) :
    parse_smf_header bytes 0 = some (tc, tpqn, p + 14 + (L - 6)) := by
  have hplt : p < bytes.length := byteAt_some_lt bytes p 77 h77
  have hskip : skipWs bytes 0 bytes.length = p :=
    skipWs_exact bytes bytes.length 0 p (Nat.zero_le p) (by omega)
      (fun j hj1 hj2 => hws j hj2) ⟨77, h77, by decide⟩
  have hscan : scan4Loop bytes p [] 4 = ([77, 84, 104, 100], p + 4) :=
    scan4_full bytes p 77 84 104 100 h77 h84 h104 h100
      (by decide) (by decide) (by decide) (by decide)
  have hfs : fscanf4s bytes 0 = some ([77, 84, 104, 100], p + 4) := by
    simp only [fscanf4s, hskip, hscan]
    rfl
  simp only [parse_smf_header, hfs, hbe32, hfmt, htc, htp]
  simp [hmask, hnz, Nat.not_lt.mpr hL]

/-- C9: the header parser succeeds exactly when, after the leading
whitespace that `fscanf("%4s")` skips (the needed correction: the magic
need not sit at the very start of the file), the bytes carry the magic
MThd, a big-endian header length of at least 6, format exactly 1, a track
count, and a ticks-per-quarter-note with high bit clear and nonzero value,
and on success it returns the track count and ticks value and skips the
header bytes beyond the first six (resuming at p + 14 + (length - 6)).
In particular ticks_pqn 1 is accepted while 0x8000 and 0 are rejected. -/
theorem c9_header_success_characterization :
    (∀ (bytes : List Nat) (r : Nat × Nat × Nat),
      parse_smf_header bytes 0 = some r ↔
      ∃ p L tc tpqn,
        (∀ j, j < p → ∃ b, byteAt bytes j = some b ∧ isWsChar b = true) ∧
        byteAt bytes p = some 77 ∧ byteAt bytes (p + 1) = some 84 ∧
        byteAt bytes (p + 2) = some 104 ∧ byteAt bytes (p + 3) = some 100 ∧
        readBE32 bytes (p + 4) = some (L, p + 8) ∧ 6 ≤ L ∧
        readBE16 bytes (p + 8) = some (1, p + 10) ∧
        readBE16 bytes (p + 10) = some (tc, p + 12) ∧
        readBE16 bytes (p + 12) = some (tpqn, p + 14) ∧
        tpqn &&& 32768 = 0 ∧ tpqn ≠ 0 ∧
        r = (tc, tpqn, p + 14 + (L - 6))) ∧
    parse_smf_header (c9_hdr 1) 0 = some (1, 1, 14) ∧
    parse_smf_header (c9_hdr 32768) 0 = none ∧
    parse_smf_header (c9_hdr 0) 0 = none := by
  refine ⟨fun bytes r => ⟨fun h => parse_header_sound bytes r h,
    fun h => ?_⟩, by decide, by decide, by decide⟩
  obtain ⟨p, L, tc, tpqn, hws, h77, h84, h104, h100, hbe32, hL, hfmt,
    htc, htp, hmask, hnz, hr⟩ := h
  rw [hr]
  exact parse_header_complete bytes p L tc tpqn hws h77 h84 h104 h100
    hbe32 hL hfmt htc htp hmask hnz

end Lightplay
